import Mathlib

/-!
# FlightController_MayDay: attitude geometry helpers, attitude controller, motor mixer
and receiver channels

Shallow embedding of `src/control/Control.cpp` and `src/rc/RC.cpp`.

`float` is modelled by an arbitrary linearly ordered field `K` (the rationals give an
executable instance, the reals the instance in which square roots exist).  Operations of
the Eigen library (`dot`, `cross`, `squaredNorm`, `normalize`, the quaternion product,
`conjugate` and `inverse`) are embedded by their mathematical definitions; the functions of
`<cmath>` (`sqrt`, `cos`, `sin`, `acos`, `asin`) are parameters, instantiated over the reals
by `Real.sqrt`, `Real.cos`, `Real.sin`, `Real.arccos`, `Real.arcsin`.  A value that is `NaN`
in the source is an absent value (`none`).
-/

/-! ## Data model -/

/-- Three-component vector (`Eigen::Vector3f`). -/
structure Vector3f (K : Type) where
  x : K
  y : K
  z : K
deriving DecidableEq, Repr

/-- Quaternion (`Eigen::Quaternionf`), scalar part `w` and vector part `(x, y, z)`. -/
structure Quaternionf (K : Type) where
  w : K
  x : K
  y : K
  z : K
deriving DecidableEq, Repr

/-- Rotor powers, in the memory order of the source union
`{frontRight, backLeft, frontLeft, backRight}` that aliases `array[4]`. -/
structure MotorPower (K : Type) where
  frontRight : K
  backLeft : K
  frontLeft : K
  backRight : K
deriving DecidableEq, Repr

section Geometry

variable {K : Type} [LinearOrderedField K]

/-- Eigen `u.dot(v)`. -/
def Vector3f.dot (u v : Vector3f K) : K := u.x * v.x + u.y * v.y + u.z * v.z

/-- Eigen `u.cross(v)`. -/
def Vector3f.cross (u v : Vector3f K) : Vector3f K :=
  ⟨u.y * v.z - u.z * v.y, u.z * v.x - u.x * v.z, u.x * v.y - u.y * v.x⟩

/-- Eigen `u.squaredNorm()`. -/
def Vector3f.squaredNorm (u : Vector3f K) : K := u.x * u.x + u.y * u.y + u.z * u.z

/-- Eigen `u.norm()`, the square root being the parameter `sqrt`. -/
def Vector3f.norm (sqrt : K → K) (u : Vector3f K) : K := sqrt u.squaredNorm

/-- Eigen unary minus on a vector. -/
def Vector3f.neg (u : Vector3f K) : Vector3f K := ⟨-u.x, -u.y, -u.z⟩

/-- Eigen `s * u`, a vector scaled by a scalar. -/
def Vector3f.scale (s : K) (u : Vector3f K) : Vector3f K := ⟨s * u.x, s * u.y, s * u.z⟩

/-- Eigen `q.vec()`, the vector part of a quaternion. -/
def Quaternionf.vec (q : Quaternionf K) : Vector3f K := ⟨q.x, q.y, q.z⟩

/-- Eigen `q.squaredNorm()`. -/
def Quaternionf.squaredNorm (q : Quaternionf K) : K :=
  q.w * q.w + q.x * q.x + q.y * q.y + q.z * q.z

/-- Eigen `q.conjugate()`. -/
def Quaternionf.conjugate (q : Quaternionf K) : Quaternionf K := ⟨q.w, -q.x, -q.y, -q.z⟩

/-- Eigen `a * b` on quaternions (Hamilton product). -/
def Quaternionf.mul (a b : Quaternionf K) : Quaternionf K :=
  ⟨a.w * b.w - a.x * b.x - a.y * b.y - a.z * b.z,
   a.w * b.x + a.x * b.w + a.y * b.z - a.z * b.y,
   a.w * b.y + a.y * b.w + a.z * b.x - a.x * b.z,
   a.w * b.z + a.z * b.w + a.x * b.y - a.y * b.x⟩

instance : Mul (Quaternionf K) := ⟨Quaternionf.mul⟩

/-- The quaternion with scalar part `0` and vector part `u`. -/
def Quaternionf.ofVec (u : Vector3f K) : Quaternionf K := ⟨0, u.x, u.y, u.z⟩

/-- The coefficients of `q` multiplied by the scalar `s`. -/
def Quaternionf.scale (s : K) (q : Quaternionf K) : Quaternionf K :=
  ⟨s * q.w, s * q.x, s * q.y, s * q.z⟩

/-- Eigen `q.normalize()`: every coefficient is divided by `q.norm()`, that is by
`sqrt(q.squaredNorm())`.  A quaternion of zero norm has no normalisation (the division is
by zero): the result is `none`. -/
def Quaternionf.normalize (sqrt : K → K) (q : Quaternionf K) : Option (Quaternionf K) :=
  if q.squaredNorm = 0 then none
  else some ⟨q.w / sqrt q.squaredNorm, q.x / sqrt q.squaredNorm,
             q.y / sqrt q.squaredNorm, q.z / sqrt q.squaredNorm⟩

/-- The function `dcm_z` (Control.cpp lines 7-18). -/
def dcm_z (q : Quaternionf K) : Vector3f K :=
  let a := q.w
  let b := q.x
  let c := q.y
  let d := q.z
  ⟨2 * (a * c + b * d), 2 * (c * d - a * b), a * a - b * b - c * c + d * d⟩

/-- Lines 23-24 of `from2vec`: the quaternion `q` before `q.normalize()`. -/
def from2vecRaw (sqrt : K → K) (u v : Vector3f K) : Quaternionf K :=
  ⟨u.dot v + sqrt (u.squaredNorm * v.squaredNorm), (u.cross v).x, (u.cross v).y,
   (u.cross v).z⟩

/-- The function `from2vec` (Control.cpp lines 20-27); `sqrt` stands for `std::sqrt`. -/
def from2vec (sqrt : K → K) (u v : Vector3f K) : Option (Quaternionf K) :=
  (from2vecRaw sqrt u v).normalize sqrt

end Geometry

section Mixer

variable {K : Type} [LinearOrderedField K]

/-- The function `std::min(a, b)`: returns `b` when `b < a`, else `a`. -/
def stdMin (a b : K) : K := if b < a then b else a

/-- The function `std::max(a, b)`: returns `b` when `a < b`, else `a`. -/
def stdMax (a b : K) : K := if a < b then b else a

/-- The view `outPower.array` of the union. -/
def MotorPower.array (p : MotorPower K) : List K :=
  [p.frontRight, p.backLeft, p.frontLeft, p.backRight]

/-- The element `outPower.array[i]` of the union, for a rotor index `i`. -/
def MotorPower.get (p : MotorPower K) (i : Fin 4) : K :=
  match i with
  | 0 => p.frontRight
  | 1 => p.backLeft
  | 2 => p.frontLeft
  | 3 => p.backRight

/-- The loop `for (float &p : outPower.array) p = f(p);`. -/
def MotorPower.map (f : K → K) (p : MotorPower K) : MotorPower K :=
  ⟨f p.frontRight, f p.backLeft, f p.frontLeft, f p.backRight⟩

namespace Control

/-- Lines 87-103 of `updateMotorPower`: the four accumulators start at `0` and receive the
signed components of `targetTrustVector` one after the other. -/
def rawPower (targetTrustVector : Vector3f K) : MotorPower K :=
  ⟨0 + targetTrustVector.x - targetTrustVector.y - targetTrustVector.z,
   0 - targetTrustVector.x + targetTrustVector.y - targetTrustVector.z,
   0 + targetTrustVector.x + targetTrustVector.y + targetTrustVector.z,
   0 - targetTrustVector.x - targetTrustVector.y + targetTrustVector.z⟩

/-- Lines 105-108, `minThrust`: the running `std::min` over `outPower.array`.  The
accumulator starts at `INFINITY`, so the first iteration stores `array[0]`; the remaining
three iterations are the fold below. -/
def minThrust (p : MotorPower K) : K :=
  [p.backLeft, p.frontLeft, p.backRight].foldl stdMin p.frontRight

/-- Lines 105-108, `maxTrust`: the running `std::max` over `outPower.array`, started at
`-INFINITY` (so the first iteration stores `array[0]`). -/
def maxTrust (p : MotorPower K) : K :=
  [p.backLeft, p.frontLeft, p.backRight].foldl stdMax p.frontRight

/-- Line 110: `len = maxTrust - minThrust` of the raw mix. -/
def len (targetTrustVector : Vector3f K) : K :=
  maxTrust (rawPower targetTrustVector) - minThrust (rawPower targetTrustVector)

/-- Lines 120-121: `adder = std::max(minimalTrust, std::min(1 - len, targetThrust))`. -/
def adder (minimalTrust targetThrust l : K) : K :=
  stdMax minimalTrust (stdMin (1 - l) targetThrust)

/-- Lines 89-124 of `updateMotorPower`: the content of `outPower` when the final loop
starts. -/
def outPower (minimalTrust targetThrust : K) (targetTrustVector : Vector3f K) :
    MotorPower K :=
  let p := rawPower targetTrustVector
  let lo := minThrust p
  let hi := maxTrust p
  let l := hi - lo
  let maxLen := 1 - minimalTrust
  if l > maxLen then
    let multiplier := (1 - minimalTrust) / l
    p.map fun v => (v - lo) * multiplier + minimalTrust
  else
    let a := stdMax minimalTrust (stdMin (1 - l) targetThrust)
    p.map fun v => (v - lo) + a

/-- The procedure `Control::updateMotorPower`: the list of calls `Motor::setPower(i, power)`
it makes, in order. -/
def updateMotorPower (minimalTrust targetThrust : K) (targetTrustVector : Vector3f K) :
    List (Nat × K) :=
  let out := (outPower minimalTrust targetThrust targetTrustVector).array
  (List.range 4).map fun i => (i, out.getD i 0)

end Control

end Mixer

section AttitudeController

variable {K : Type} [LinearOrderedField K]

/-- The function `std::clamp(v, lo, hi)`: `lo` when `v < lo`, else `hi` when `hi < v`,
else `v`. -/
def stdClamp (v lo hi : K) : K := if v < lo then lo else if hi < v then hi else v

/-- Eigen unary minus on a quaternion (all four coefficients negated). -/
def Quaternionf.neg (q : Quaternionf K) : Quaternionf K := ⟨-q.w, -q.x, -q.y, -q.z⟩

/-- Eigen `q.inverse()`: the conjugate divided by the squared norm when the squared norm is
positive, the zero quaternion otherwise. -/
def Quaternionf.inverse (q : Quaternionf K) : Quaternionf K :=
  if q.squaredNorm > 0 then
    ⟨q.conjugate.w / q.squaredNorm, q.conjugate.x / q.squaredNorm,
     q.conjugate.y / q.squaredNorm, q.conjugate.z / q.squaredNorm⟩
  else ⟨0, 0, 0, 0⟩

/-- The representative with non-negative scalar part of the rotation of `q` (the quaternion
`q` itself when `0 ≤ q.w`, `-q` otherwise): the "shorter rotational path" of the
specification. -/
def Quaternionf.canonical (q : Quaternionf K) : Quaternionf K := if q.w < 0 then q.neg else q

/-- Eigen `v[axis]` for `axis = 0, 1, 2`. -/
def Vector3f.get (v : Vector3f K) (axis : Fin 3) : K :=
  match axis with
  | 0 => v.x
  | 1 => v.y
  | 2 => v.z

/-- The assignment `v[axis] = a`. -/
def Vector3f.set (v : Vector3f K) (axis : Fin 3) (a : K) : Vector3f K :=
  match axis with
  | 0 => ⟨a, v.y, v.z⟩
  | 1 => ⟨v.x, a, v.z⟩
  | 2 => ⟨v.x, v.y, a⟩

/-- The enumeration `AngleControlMode` of `Control.hpp`: the mode of one axis. -/
inductive AngleControlMode where
  | angle
  | rate
deriving DecidableEq, Repr

namespace Control

/-- Lines 162-163 of `velocityHandler`: the condition of the degenerate-case branch,
`std::abs(q.x()) > (1.f - 1e-5f) or std::abs(q.y()) > (1.f - 1e-5f)`. -/
def tiltGuard (q : Quaternionf K) : Bool :=
  decide (|q.x| > 1 - 1 / 100000 ∨ |q.y| > 1 - 1 / 100000)

/-- Lines 158-174 of `velocityHandler`: the value of `q_tiltError` after the branch; absent
when `from2vec` has no result. -/
def q_tiltError (sqrt : K → K) (attitude qd : Quaternionf K) : Option (Quaternionf K) :=
  let e_z := dcm_z attitude
  let e_z_d := dcm_z qd
  (from2vec sqrt e_z e_z_d).map fun q =>
    if tiltGuard q then qd else q * attitude

/-- Lines 177-181 of `velocityHandler`: `q_mix` after the two `std::clamp` assignments. -/
def q_mix (q_tiltError qd : Quaternionf K) : Quaternionf K :=
  let m := q_tiltError.inverse * qd
  ⟨stdClamp m.w (-1) 1, m.x, m.y, stdClamp m.z (-1) 1⟩

/-- Lines 182-185 of `velocityHandler`: the quaternion
`Quaternionf(cos(yawWeight * acos(q_mix.w)), 0, 0, sin(yawWeight * asin(q_mix.z)))`. -/
def yawBlend (cos sin acos asin : K → K) (yawWeight : K) (m : Quaternionf K) :
    Quaternionf K :=
  ⟨cos (yawWeight * acos m.w), 0, 0, sin (yawWeight * asin m.z)⟩

/-- Lines 177-185 of `velocityHandler`: the new value of `qd`, the blended target
attitude. -/
def qdFinal (cos sin acos asin : K → K) (yawWeight : K) (q_tiltError qd : Quaternionf K) :
    Quaternionf K :=
  q_tiltError * yawBlend cos sin acos asin yawWeight (q_mix q_tiltError qd)

/-- Lines 188-191 of `velocityHandler`: `angleError` for the blended target `qd`. -/
def angleErrorOf (attitude qd : Quaternionf K) : Vector3f K :=
  let angleError := Vector3f.scale 2 (attitude.conjugate * qd).vec
  if attitude.w < 0 then angleError.neg else angleError

/-- Lines 153-191 of `velocityHandler`: the vector `angleError` handed to the angle PIDs, as
a function of `yawWeight`, the current attitude and `targetAttitude`. -/
def angleError (sqrt cos sin acos asin : K → K) (yawWeight : K)
    (attitude targetAttitude : Quaternionf K) : Option (Vector3f K) :=
  (q_tiltError sqrt attitude targetAttitude).map fun qte =>
    angleErrorOf attitude (qdFinal cos sin acos asin yawWeight qte targetAttitude)

/-- One iteration of the loop of lines 193-195.  The PID class is not under src/: its state
is a type `P` and its method `calculate(error, derivative, setpointWeight)` the parameter
`calculate`, which returns the output and the next state.  The error handed to it and its
output are floats that may be `NaN` (`none`): when `angleError` is `NaN` the call is made
all the same. -/
def angleStep {P : Type} (calculate : P → Option K → K → K → Option K × P)
    (angleModes : Fin 3 → AngleControlMode) (angleError : Option (Vector3f K)) (axis : Fin 3)
    (st : Vector3f (Option K) × (Fin 3 → P)) : Vector3f (Option K) × (Fin 3 → P) :=
  if angleModes axis = AngleControlMode.angle then
    (st.1.set axis (calculate (st.2 axis) (angleError.map fun e => e.get axis) 0 0).1,
     Function.update st.2 axis
       (calculate (st.2 axis) (angleError.map fun e => e.get axis) 0 0).2)
  else st

/-- Lines 193-198 of `velocityHandler`: the loop over `axis = 0, 1, 2`, from `target` and
the three angle PIDs to the new `targetRate` and PID states. -/
def angleStage {P : Type} (calculate : P → Option K → K → K → Option K × P)
    (angleModes : Fin 3 → AngleControlMode) (anglePid : Fin 3 → P)
    (angleError : Option (Vector3f K)) (target : Vector3f (Option K)) :
    Vector3f (Option K) × (Fin 3 → P) :=
  angleStep calculate angleModes angleError 2
    (angleStep calculate angleModes angleError 1
      (angleStep calculate angleModes angleError 0 (target, anglePid)))

/-- The procedure `Control::velocityHandler`: from `targetRate`, the attitude read from the
AHRS, `targetAttitude`, the mode table and the angle PIDs to the new `targetRate` and PID
states.  It has no early exit: `target` starts as `targetRate` (line 152), the loop of lines
193-195 runs for every state, also when `angleError` is `NaN`, and line 198 stores
`target`.  The components of `targetRate` are floats that may be `NaN` (`none`). -/
def velocityHandler {P : Type} (sqrt cos sin acos asin : K → K) (yawWeight : K)
    (calculate : P → Option K → K → K → Option K × P) (angleModes : Fin 3 → AngleControlMode)
    (anglePid : Fin 3 → P) (targetRate : Vector3f (Option K))
    (attitude targetAttitude : Quaternionf K) : Vector3f (Option K) × (Fin 3 → P) :=
  let target := targetRate
  let e := angleError sqrt cos sin acos asin yawWeight attitude targetAttitude
  angleStage calculate angleModes anglePid e target

/-- Modelled from the spec: the PID class is not under src/.  The angle stage is
"proportional-only", integral and derivative terms disabled: the output of
`calculate(error, derivative, setpointWeight)` is `kp * error` (`NaN` for a `NaN` error) and
the state, the gain `kp`, does not change. -/
def proportionalCalculate (kp : K) (error : Option K) (_derivative _setpointWeight : K) :
    Option K × K :=
  (error.map fun e => kp * e, kp)

end Control

end AttitudeController

section Receiver

variable {K : Type} [LinearOrderedField K]

namespace RC

/-- Lines 185-187 of `checkValues`, the body of the loop for one entry of
`_channelsAssign`; `maxChannelCount` is a constant of `RC.hpp`. -/
def checkAssign (maxChannelCount : Nat) (assign : Int) : Int :=
  if assign < 0 ∨ assign > (maxChannelCount : Int) then 0 else assign

/-- Lines 185-187 of `checkValues`: the new content of `_channelsAssign`. -/
def checkValues (maxChannelCount : Nat) (channelsAssign : List Int) : List Int :=
  channelsAssign.map (checkAssign maxChannelCount)

/-- The functions `channel(ChannelFunction)` and `inDZ(ChannelFunction)` (lines 46-53 and
65-72), which share their control flow: `none` when the default (`NAN`, `false`) is
returned, `some i` when `_channels[i]`, respectively `_channelInDZ[i]`, is read.
`functionEnd` is `ChannelFunction::__end`. -/
def channelIndex (functionEnd : Nat) (channelsAssign : List Int) (ch : Nat) : Option Int :=
  if ch ≥ functionEnd ∨ channelsAssign.getD ch 0 = 0 then none
  else some (channelsAssign.getD ch 0)

/-- The functions `channel(unsigned)` and `inDZ(unsigned)` (lines 36-44 and 55-63): `none`
when the default is returned, `some i` when index `i` is read. -/
def channelNumberIndex (maxChannelCount channelsCount channel : Nat) : Option Nat :=
  if channel = 0 ∨ channel > maxChannelCount ∨ channel > channelsCount then none
  else some (channel - 1)

/-- Lines 86-101 of `update`, the body of the first loop for one channel: the value stored
in `_channels[i]` and the flag stored in `_channelInDZ[i]`, from the calibration of the
channel and the raw input. -/
def normalizeChannel (minChannelValue maxChannelValue channelDeadZone channelIsReverse : K)
    (raw : Int) : K × Bool :=
  let n0 : K := (raw : K)
  let n1 := n0 - minChannelValue
  let n2 := n1 / (maxChannelValue - minChannelValue)
  let n3 := stdClamp n2 0 1
  let n4 := if channelIsReverse < 0 then 1 - n3 else n3
  let inDZ := decide (|n4| ≤ channelDeadZone * (1 / 1000))
  let n5 := n4 * 2 - 1
  let n6 := stdClamp n5 (-1) 1
  (if inDZ then 0 else n6, inDZ)

/-- Lines 80-104 of `update`: the new content of `_channels`; `none` is `NAN`. -/
def update (maxChannelCount : Nat)
    (minChannelValue maxChannelValue channelDeadZone channelIsReverse : Nat → K)
    (channels : Nat → Int) (channelCount : Nat) : List (Option K) :=
  (List.range maxChannelCount).map fun i =>
    if i < min maxChannelCount channelCount then
      some (normalizeChannel (minChannelValue i) (maxChannelValue i) (channelDeadZone i)
        (channelIsReverse i) (channels i)).1
    else none

end RC

end Receiver

/-! ## Theorems -/

section GeometryLemmas

theorem Quaternionf.mul_def {K : Type} [LinearOrderedField K] (a b : Quaternionf K) :
    a * b = Quaternionf.mul a b := rfl

theorem from2vecRaw_unit (u v : Vector3f ℝ) (hu : u.squaredNorm = 1) (hv : v.squaredNorm = 1) :
    from2vecRaw Real.sqrt u v = ⟨u.dot v + 1, (u.cross v).x, (u.cross v).y, (u.cross v).z⟩ := by
  simp [from2vecRaw, hu, hv]

theorem Vector3f.neg_one_lt_dot (u v : Vector3f ℝ) (hu : u.squaredNorm = 1)
    (hv : v.squaredNorm = 1) (hne : v ≠ u.neg) : -1 < u.dot v := by
  by_contra hcon
  have hle : u.dot v ≤ -1 := not_lt.mp hcon
  simp only [Vector3f.squaredNorm] at hu hv
  simp only [Vector3f.dot] at hle
  have hsum : (u.x + v.x) ^ 2 + (u.y + v.y) ^ 2 + (u.z + v.z) ^ 2 ≤ 0 := by nlinarith
  have hx : (u.x + v.x) ^ 2 = 0 := by
    nlinarith [sq_nonneg (u.x + v.x), sq_nonneg (u.y + v.y), sq_nonneg (u.z + v.z)]
  have hy : (u.y + v.y) ^ 2 = 0 := by
    nlinarith [sq_nonneg (u.x + v.x), sq_nonneg (u.y + v.y), sq_nonneg (u.z + v.z)]
  have hz : (u.z + v.z) ^ 2 = 0 := by
    nlinarith [sq_nonneg (u.x + v.x), sq_nonneg (u.y + v.y), sq_nonneg (u.z + v.z)]
  apply hne
  cases v with
  | mk a b c =>
    simp only [Vector3f.neg, Vector3f.mk.injEq]
    simp only [pow_eq_zero_iff, ne_eq, OfNat.ofNat_ne_zero, not_false_eq_true] at hx hy hz
    exact ⟨by linarith, by linarith, by linarith⟩

theorem from2vecRaw_squaredNorm_unit (u v : Vector3f ℝ) (hu : u.squaredNorm = 1)
    (hv : v.squaredNorm = 1) :
    (from2vecRaw Real.sqrt u v).squaredNorm = 2 * (1 + u.dot v) := by
  rw [from2vecRaw_unit u v hu hv]
  simp only [Vector3f.squaredNorm] at hu hv
  simp only [Quaternionf.squaredNorm, Vector3f.cross, Vector3f.dot]
  linear_combination (v.x * v.x + v.y * v.y + v.z * v.z) * hu + hv

/-- Conjugating the pure quaternion of the unit vector `u` by `(1 + u·v, u × v)` scaled by
`i`, where `i * i * (2 * (1 + u·v)) = 1`, gives the pure quaternion of the unit vector `v`. -/
theorem Quaternionf.rotate_from2vec (u v : Vector3f ℝ) (i : ℝ) (hu : u.squaredNorm = 1)
    (hv : v.squaredNorm = 1) (hi : i * i * (2 * (1 + u.dot v)) = 1) :
    (⟨(u.dot v + 1) * i, (u.cross v).x * i, (u.cross v).y * i, (u.cross v).z * i⟩ :
        Quaternionf ℝ) * Quaternionf.ofVec u
      * (⟨(u.dot v + 1) * i, (u.cross v).x * i, (u.cross v).y * i, (u.cross v).z * i⟩ :
        Quaternionf ℝ).conjugate = Quaternionf.ofVec v := by
  simp only [Vector3f.squaredNorm] at hu hv
  simp only [Vector3f.dot] at hi
  simp only [Quaternionf.mul_def, Quaternionf.mul, Quaternionf.ofVec, Quaternionf.conjugate,
    Vector3f.cross, Vector3f.dot, Quaternionf.mk.injEq]
  refine ⟨by ring, ?_, ?_, ?_⟩
  · linear_combination
      (i * i * (2 * (1 + (u.x * v.x + u.y * v.y + u.z * v.z)) * v.x
        - (v.x * v.x + v.y * v.y + v.z * v.z) * u.x)) * hu + (i * i * (-u.x)) * hv + v.x * hi
  · linear_combination
      (i * i * (2 * (1 + (u.x * v.x + u.y * v.y + u.z * v.z)) * v.y
        - (v.x * v.x + v.y * v.y + v.z * v.z) * u.y)) * hu + (i * i * (-u.y)) * hv + v.y * hi
  · linear_combination
      (i * i * (2 * (1 + (u.x * v.x + u.y * v.y + u.z * v.z)) * v.z
        - (v.x * v.x + v.y * v.y + v.z * v.z) * u.z)) * hu + (i * i * (-u.z)) * hv + v.z * hi

end GeometryLemmas

section GeometryClaims

/-- C6: for every quaternion `q = (w, x, y, z)` with `w^2 + x^2 + y^2 + z^2 = 1` the vector
`dcm_z q` has Euclidean norm exactly `1` over the reals; more generally, for every
quaternion `p`, `|dcm_z p|^2 = (w^2 + x^2 + y^2 + z^2)^2`. -/
theorem dcm_z_unit_norm (q : Quaternionf ℝ) (hq : q.squaredNorm = 1) :
    (dcm_z q).norm Real.sqrt = 1 ∧
    ∀ p : Quaternionf ℝ, (dcm_z p).squaredNorm = p.squaredNorm ^ 2 := by
  have hgen : ∀ p : Quaternionf ℝ, (dcm_z p).squaredNorm = p.squaredNorm ^ 2 := by
    intro p
    simp only [dcm_z, Vector3f.squaredNorm, Quaternionf.squaredNorm]
    ring
  refine ⟨?_, hgen⟩
  rw [Vector3f.norm, hgen q, hq]
  norm_num

/-- Witness of C6: the unit quaternion `(3/5, 0, 4/5, 0)`. -/
theorem dcm_z_unit_norm_witness :
    (⟨3 / 5, 0, 4 / 5, 0⟩ : Quaternionf ℝ).squaredNorm = 1 ∧
    (dcm_z (⟨3 / 5, 0, 4 / 5, 0⟩ : Quaternionf ℝ)).norm Real.sqrt = 1 :=
  ⟨by norm_num [Quaternionf.squaredNorm],
   (dcm_z_unit_norm ⟨3 / 5, 0, 4 / 5, 0⟩ (by norm_num [Quaternionf.squaredNorm])).1⟩

/-- C7: for every quaternion `q` (unit or not) `dcm_z q` is the vector part of
`q * (0, 0,0,1) * conjugate q`, the image of the body z-axis `(0,0,1)` under `q`, and that
product has scalar part `0`; and `dcm_z (1,0,0,0) = (0, 0, 1)`. -/
theorem dcm_z_body_z_axis {K : Type} [LinearOrderedField K] (q : Quaternionf K) :
    dcm_z q = (q * Quaternionf.ofVec ⟨0, 0, 1⟩ * q.conjugate).vec ∧
    (q * Quaternionf.ofVec ⟨0, 0, 1⟩ * q.conjugate).w = 0 ∧
    dcm_z (⟨1, 0, 0, 0⟩ : Quaternionf K) = ⟨0, 0, 1⟩ := by
  refine ⟨?_, ?_, ?_⟩
  · simp only [dcm_z, Quaternionf.mul_def, Quaternionf.mul, Quaternionf.ofVec,
      Quaternionf.conjugate, Quaternionf.vec, Vector3f.mk.injEq]
    refine ⟨?_, ?_, ?_⟩ <;> ring
  · simp only [Quaternionf.mul_def, Quaternionf.mul, Quaternionf.ofVec, Quaternionf.conjugate]
    ring
  · simp [dcm_z]

/-- C8: for every unit vector `u` (over the reals), `from2vec u u` returns the identity
quaternion `(1, 0, 0, 0)` exactly. -/
theorem from2vec_self (u : Vector3f ℝ) (hu : u.squaredNorm = 1) :
    from2vec Real.sqrt u u = some ⟨1, 0, 0, 0⟩ := by
  have hdot : u.dot u = 1 := hu
  have hraw : from2vecRaw Real.sqrt u u = ⟨2, 0, 0, 0⟩ := by
    rw [from2vecRaw_unit u u hu hu, hdot]
    simp only [Vector3f.cross, Quaternionf.mk.injEq]
    refine ⟨by norm_num, ?_, ?_, ?_⟩ <;> ring
  have h4 : Real.sqrt 4 = 2 := by
    rw [show (4 : ℝ) = 2 ^ 2 by norm_num]
    exact Real.sqrt_sq (by norm_num)
  have hn : (⟨2, 0, 0, 0⟩ : Quaternionf ℝ).squaredNorm = 4 := by
    norm_num [Quaternionf.squaredNorm]
  rw [from2vec, hraw, Quaternionf.normalize, hn, if_neg (by norm_num), h4]
  norm_num

/-- Witness of C8: the unit vector `(3/5, 4/5, 0)`. -/
theorem from2vec_self_witness :
    (⟨3 / 5, 4 / 5, 0⟩ : Vector3f ℝ).squaredNorm = 1 ∧
    from2vec Real.sqrt (⟨3 / 5, 4 / 5, 0⟩ : Vector3f ℝ) ⟨3 / 5, 4 / 5, 0⟩
      = some ⟨1, 0, 0, 0⟩ :=
  ⟨by norm_num [Vector3f.squaredNorm],
   from2vec_self ⟨3 / 5, 4 / 5, 0⟩ (by norm_num [Vector3f.squaredNorm])⟩

/-- C9: for all unit vectors `u`, `v` (over the reals) with `v ≠ -u`, `from2vec u v`
returns a quaternion `q` of unit norm, with scalar part `> 0`, whose vector part is a
positive multiple of `u × v`, and rotating `u` by `q` gives exactly `v`:
`q * (0, u) * conjugate q = (0, v)`. -/
theorem from2vec_shortest_rotation (u v : Vector3f ℝ) (hu : u.squaredNorm = 1)
    (hv : v.squaredNorm = 1) (hne : v ≠ u.neg) :
    ∃ q : Quaternionf ℝ, from2vec Real.sqrt u v = some q ∧
      q.squaredNorm = 1 ∧ 0 < q.w ∧
      (∃ k : ℝ, 0 < k ∧ q.vec = Vector3f.scale k (u.cross v)) ∧
      q * Quaternionf.ofVec u * q.conjugate = Quaternionf.ofVec v ∧
      (q * Quaternionf.ofVec u * q.conjugate).vec = v := by
  have hc : -1 < u.dot v := Vector3f.neg_one_lt_dot u v hu hv hne
  have hN : (from2vecRaw Real.sqrt u v).squaredNorm = 2 * (1 + u.dot v) :=
    from2vecRaw_squaredNorm_unit u v hu hv
  have hNpos : 0 < 2 * (1 + u.dot v) := by linarith
  have hnpos : 0 < Real.sqrt (2 * (1 + u.dot v)) := Real.sqrt_pos.mpr hNpos
  have hnn : Real.sqrt (2 * (1 + u.dot v)) * Real.sqrt (2 * (1 + u.dot v))
      = 2 * (1 + u.dot v) := Real.mul_self_sqrt hNpos.le
  have hi : (Real.sqrt (2 * (1 + u.dot v)))⁻¹ * (Real.sqrt (2 * (1 + u.dot v)))⁻¹
      * (2 * (1 + u.dot v)) = 1 := by
    rw [← mul_inv, hnn]
    exact inv_mul_cancel₀ hNpos.ne.symm
  have hsome : from2vec Real.sqrt u v = some
      ⟨(u.dot v + 1) * (Real.sqrt (2 * (1 + u.dot v)))⁻¹,
       (u.cross v).x * (Real.sqrt (2 * (1 + u.dot v)))⁻¹,
       (u.cross v).y * (Real.sqrt (2 * (1 + u.dot v)))⁻¹,
       (u.cross v).z * (Real.sqrt (2 * (1 + u.dot v)))⁻¹⟩ := by
    rw [from2vec, Quaternionf.normalize, hN, if_neg hNpos.ne.symm,
      from2vecRaw_unit u v hu hv]
    simp only [div_eq_mul_inv]
  have hrot := Quaternionf.rotate_from2vec u v (Real.sqrt (2 * (1 + u.dot v)))⁻¹ hu hv hi
  refine ⟨_, hsome, ?_, ?_, ?_, hrot, ?_⟩
  · have hraw : (u.dot v + 1) * (u.dot v + 1) + (u.cross v).x * (u.cross v).x
        + (u.cross v).y * (u.cross v).y + (u.cross v).z * (u.cross v).z
        = 2 * (1 + u.dot v) := by
      rw [← hN, from2vecRaw_unit u v hu hv, Quaternionf.squaredNorm]
    simp only [Quaternionf.squaredNorm]
    linear_combination
      ((Real.sqrt (2 * (1 + u.dot v)))⁻¹ * (Real.sqrt (2 * (1 + u.dot v)))⁻¹) * hraw + hi
  · exact mul_pos (by linarith) (inv_pos.mpr hnpos)
  · refine ⟨(Real.sqrt (2 * (1 + u.dot v)))⁻¹, inv_pos.mpr hnpos, ?_⟩
    simp only [Quaternionf.vec, Vector3f.scale, Vector3f.mk.injEq]
    exact ⟨mul_comm _ _, mul_comm _ _, mul_comm _ _⟩
  · rw [hrot]
    rfl

/-- Witness of C9: `u = (1, 0, 0)` and `v = (0, 1, 0)`. -/
theorem from2vec_shortest_rotation_witness :
    (⟨1, 0, 0⟩ : Vector3f ℝ).squaredNorm = 1 ∧ (⟨0, 1, 0⟩ : Vector3f ℝ).squaredNorm = 1 ∧
    (⟨0, 1, 0⟩ : Vector3f ℝ) ≠ (⟨1, 0, 0⟩ : Vector3f ℝ).neg ∧
    ∃ q : Quaternionf ℝ, from2vec Real.sqrt ⟨1, 0, 0⟩ ⟨0, 1, 0⟩ = some q ∧
      q.squaredNorm = 1 ∧ 0 < q.w ∧
      (∃ k : ℝ, 0 < k ∧ q.vec = Vector3f.scale k
        ((⟨1, 0, 0⟩ : Vector3f ℝ).cross ⟨0, 1, 0⟩)) ∧
      q * Quaternionf.ofVec ⟨1, 0, 0⟩ * q.conjugate = Quaternionf.ofVec ⟨0, 1, 0⟩ ∧
      (q * Quaternionf.ofVec ⟨1, 0, 0⟩ * q.conjugate).vec = ⟨0, 1, 0⟩ :=
  ⟨by norm_num [Vector3f.squaredNorm], by norm_num [Vector3f.squaredNorm],
   by simp [Vector3f.neg],
   from2vec_shortest_rotation ⟨1, 0, 0⟩ ⟨0, 1, 0⟩ (by norm_num [Vector3f.squaredNorm])
     (by norm_num [Vector3f.squaredNorm]) (by simp [Vector3f.neg])⟩

/-- C10: for every non-zero `u` and every `c > 0`, with `v = -c * u`, the quaternion that
`from2vec` builds before `normalize` has scalar part `0` and vector part `0`, hence zero
norm; `normalize` then divides by zero, `from2vec` returns no quaternion, and no rescaling
of the built quaternion has unit norm. -/
theorem from2vec_antiparallel_degenerate (u : Vector3f ℝ) (c : ℝ)
    (_hu : u ≠ ⟨0, 0, 0⟩) (hc : 0 < c) :
    from2vecRaw Real.sqrt u (Vector3f.scale (-c) u) = ⟨0, 0, 0, 0⟩ ∧
    (from2vecRaw Real.sqrt u (Vector3f.scale (-c) u)).squaredNorm = 0 ∧
    Real.sqrt (from2vecRaw Real.sqrt u (Vector3f.scale (-c) u)).squaredNorm = 0 ∧
    from2vec Real.sqrt u (Vector3f.scale (-c) u) = none ∧
    ∀ s : ℝ, (Quaternionf.scale s
      (from2vecRaw Real.sqrt u (Vector3f.scale (-c) u))).squaredNorm ≠ 1 := by
  have hU : 0 ≤ u.squaredNorm := by
    simp only [Vector3f.squaredNorm]
    nlinarith [mul_self_nonneg u.x, mul_self_nonneg u.y, mul_self_nonneg u.z]
  have hprod : u.squaredNorm * (Vector3f.scale (-c) u).squaredNorm
      = (c * u.squaredNorm) ^ 2 := by
    simp only [Vector3f.squaredNorm, Vector3f.scale]
    ring
  have hsqrt : Real.sqrt (u.squaredNorm * (Vector3f.scale (-c) u).squaredNorm)
      = c * u.squaredNorm := by
    rw [hprod]
    exact Real.sqrt_sq (mul_nonneg hc.le hU)
  have hraw : from2vecRaw Real.sqrt u (Vector3f.scale (-c) u) = ⟨0, 0, 0, 0⟩ := by
    rw [from2vecRaw, hsqrt]
    simp only [Vector3f.dot, Vector3f.cross, Vector3f.scale, Vector3f.squaredNorm,
      Quaternionf.mk.injEq]
    refine ⟨?_, ?_, ?_, ?_⟩ <;> ring
  have hzero : (⟨0, 0, 0, 0⟩ : Quaternionf ℝ).squaredNorm = 0 := by
    simp [Quaternionf.squaredNorm]
  refine ⟨hraw, ?_, ?_, ?_, ?_⟩
  · rw [hraw, hzero]
  · rw [hraw, hzero, Real.sqrt_zero]
  · rw [from2vec, hraw, Quaternionf.normalize, if_pos hzero]
  · intro s
    rw [hraw]
    simp [Quaternionf.scale, Quaternionf.squaredNorm]

/-- Witness of C10: `u = (0, 0, 1)`, `c = 1`, that is `v = (0, 0, -1)`. -/
theorem from2vec_antiparallel_degenerate_witness :
    (⟨0, 0, 1⟩ : Vector3f ℝ) ≠ ⟨0, 0, 0⟩ ∧ (0 : ℝ) < 1 ∧
    from2vec Real.sqrt (⟨0, 0, 1⟩ : Vector3f ℝ) (Vector3f.scale (-1) ⟨0, 0, 1⟩) = none :=
  ⟨by simp, by norm_num,
   (from2vec_antiparallel_degenerate ⟨0, 0, 1⟩ 1 (by simp) (by norm_num)).2.2.2.1⟩

end GeometryClaims

section MixerLemmas

theorem MotorPower.get_map {K : Type} (f : K → K) (p : MotorPower K) (i : Fin 4) :
    (p.map f).get i = f (p.get i) := by
  fin_cases i <;> rfl

variable {K : Type} [LinearOrderedField K]

theorem stdMin_eq_min (a b : K) : stdMin a b = min a b := by
  unfold stdMin
  split_ifs with h
  · exact (min_eq_right h.le).symm
  · exact (min_eq_left (not_lt.mp h)).symm

theorem stdMax_eq_max (a b : K) : stdMax a b = max a b := by
  unfold stdMax
  split_ifs with h
  · exact (max_eq_right h.le).symm
  · exact (max_eq_left (not_lt.mp h)).symm

theorem Control.minThrust_eq (p : MotorPower K) :
    Control.minThrust p = min (min (min p.frontRight p.backLeft) p.frontLeft) p.backRight := by
  simp [Control.minThrust, stdMin_eq_min]

theorem Control.maxTrust_eq (p : MotorPower K) :
    Control.maxTrust p = max (max (max p.frontRight p.backLeft) p.frontLeft) p.backRight := by
  simp [Control.maxTrust, stdMax_eq_max]

theorem Control.updateMotorPower_eq (m T : K) (t : Vector3f K) :
    Control.updateMotorPower m T t =
      [(0, (Control.outPower m T t).frontRight), (1, (Control.outPower m T t).backLeft),
       (2, (Control.outPower m T t).frontLeft), (3, (Control.outPower m T t).backRight)] := by
  simp [Control.updateMotorPower, MotorPower.array, List.range, List.range.loop]

theorem Control.outPower_saturated (m T : K) (t : Vector3f K) (h : 1 - m < Control.len t) :
    Control.outPower m T t = (Control.rawPower t).map fun v =>
      (v - Control.minThrust (Control.rawPower t)) * ((1 - m) / Control.len t) + m := by
  unfold Control.len at h
  simp only [Control.outPower, Control.len, gt_iff_lt, if_pos h]

theorem Control.outPower_unsaturated (m T : K) (t : Vector3f K) (h : Control.len t ≤ 1 - m) :
    Control.outPower m T t = (Control.rawPower t).map fun v =>
      (v - Control.minThrust (Control.rawPower t)) + Control.adder m T (Control.len t) := by
  unfold Control.len at h
  simp only [Control.outPower, Control.len, Control.adder, gt_iff_lt, if_neg (not_lt.mpr h)]

theorem Control.minThrust_le (p : MotorPower K) :
    Control.minThrust p ≤ p.frontRight ∧ Control.minThrust p ≤ p.backLeft ∧
      Control.minThrust p ≤ p.frontLeft ∧ Control.minThrust p ≤ p.backRight := by
  rw [Control.minThrust_eq]
  refine ⟨?_, ?_, ?_, ?_⟩ <;> simp [min_le_iff, le_refl]

theorem Control.le_maxTrust (p : MotorPower K) :
    p.frontRight ≤ Control.maxTrust p ∧ p.backLeft ≤ Control.maxTrust p ∧
      p.frontLeft ≤ Control.maxTrust p ∧ p.backRight ≤ Control.maxTrust p := by
  rw [Control.maxTrust_eq]
  refine ⟨?_, ?_, ?_, ?_⟩ <;> simp [le_max_iff, le_refl]

theorem Control.adder_bounds (m T l : K) (hl : l ≤ 1 - m) :
    m ≤ Control.adder m T l ∧ Control.adder m T l ≤ 1 - l := by
  unfold Control.adder
  rw [stdMax_eq_max, stdMin_eq_min]
  exact ⟨le_max_left _ _, max_le (by linarith) (min_le_left _ _)⟩

theorem Control.saturated_entry_bounds (m lo hi v : K) (hm : m < 1) (hs : 1 - m < hi - lo)
    (h1 : lo ≤ v) (h2 : v ≤ hi) :
    m ≤ (v - lo) * ((1 - m) / (hi - lo)) + m ∧ (v - lo) * ((1 - m) / (hi - lo)) + m ≤ 1 := by
  have hl : 0 < hi - lo := by linarith
  have hk : 0 ≤ (1 - m) / (hi - lo) := div_nonneg (by linarith) hl.le
  constructor
  · have := mul_nonneg (sub_nonneg.mpr h1) hk
    linarith
  · have h3 : (v - lo) * ((1 - m) / (hi - lo)) ≤ (hi - lo) * ((1 - m) / (hi - lo)) :=
      mul_le_mul_of_nonneg_right (by linarith) hk
    have h4 : (hi - lo) * ((1 - m) / (hi - lo)) = 1 - m := by
      field_simp
    linarith

theorem Control.unsaturated_entry_bounds (m T lo hi v : K) (hs : hi - lo ≤ 1 - m)
    (h1 : lo ≤ v) (h2 : v ≤ hi) :
    m ≤ (v - lo) + Control.adder m T (hi - lo) ∧ (v - lo) + Control.adder m T (hi - lo) ≤ 1 := by
  obtain ⟨ha, hb⟩ := Control.adder_bounds m T (hi - lo) hs
  constructor <;> linarith

theorem Control.outPower_bounds (m T : K) (t : Vector3f K) (hm : m < 1) :
    (m ≤ (Control.outPower m T t).frontRight ∧ (Control.outPower m T t).frontRight ≤ 1) ∧
    (m ≤ (Control.outPower m T t).backLeft ∧ (Control.outPower m T t).backLeft ≤ 1) ∧
    (m ≤ (Control.outPower m T t).frontLeft ∧ (Control.outPower m T t).frontLeft ≤ 1) ∧
    (m ≤ (Control.outPower m T t).backRight ∧ (Control.outPower m T t).backRight ≤ 1) := by
  obtain ⟨a1, a2, a3, a4⟩ := Control.minThrust_le (Control.rawPower t)
  obtain ⟨b1, b2, b3, b4⟩ := Control.le_maxTrust (Control.rawPower t)
  rcases lt_or_le (1 - m) (Control.len t) with h | h
  · rw [Control.outPower_saturated m T t h]
    unfold Control.len at h ⊢
    exact ⟨Control.saturated_entry_bounds m _ _ _ hm h a1 b1,
      Control.saturated_entry_bounds m _ _ _ hm h a2 b2,
      Control.saturated_entry_bounds m _ _ _ hm h a3 b3,
      Control.saturated_entry_bounds m _ _ _ hm h a4 b4⟩
  · rw [Control.outPower_unsaturated m T t h]
    unfold Control.len at h ⊢
    exact ⟨Control.unsaturated_entry_bounds m T _ _ _ h a1 b1,
      Control.unsaturated_entry_bounds m T _ _ _ h a2 b2,
      Control.unsaturated_entry_bounds m T _ _ _ h a3 b3,
      Control.unsaturated_entry_bounds m T _ _ _ h a4 b4⟩

theorem Control.minThrust_map (f : K → K) (hf : Monotone f) (p : MotorPower K) :
    Control.minThrust (p.map f) = f (Control.minThrust p) := by
  simp only [Control.minThrust_eq, MotorPower.map, hf.map_min]

theorem Control.maxTrust_map (f : K → K) (hf : Monotone f) (p : MotorPower K) :
    Control.maxTrust (p.map f) = f (Control.maxTrust p) := by
  simp only [Control.maxTrust_eq, MotorPower.map, hf.map_max]

theorem Control.saturated_monotone (m lo l : K) (hm : m < 1) (hl : 0 < l) :
    Monotone fun v : K => (v - lo) * ((1 - m) / l) + m := by
  intro a b hab
  have hk : 0 ≤ (1 - m) / l := div_nonneg (by linarith) hl.le
  have : (a - lo) * ((1 - m) / l) ≤ (b - lo) * ((1 - m) / l) :=
    mul_le_mul_of_nonneg_right (by linarith) hk
  simpa using this

theorem Control.unsaturated_monotone (lo a : K) : Monotone fun v : K => (v - lo) + a := by
  intro u v huv
  simpa using huv

end MixerLemmas

section MixerClaims

variable {K : Type} [LinearOrderedField K]

/-- C1: for every virtual thrust vector, every target thrust in `[0,1]` and every
`minimalTrust` in `[0,1)`, `updateMotorPower` calls `Motor::setPower` for the rotors
`0,1,2,3` in this order, and every power it passes lies in `[minimalTrust, 1]`, whichever
of the two branches (saturated or unsaturated) is taken. -/
theorem Control.updateMotorPower_within_bounds (minimalTrust targetThrust : K)
    (targetTrustVector : Vector3f K)
    (_hm0 : 0 ≤ minimalTrust) (hm1 : minimalTrust < 1)
    (_hT0 : 0 ≤ targetThrust) (_hT1 : targetThrust ≤ 1) :
    (Control.updateMotorPower minimalTrust targetThrust targetTrustVector).map Prod.fst
        = [0, 1, 2, 3] ∧
    ∀ c ∈ Control.updateMotorPower minimalTrust targetThrust targetTrustVector,
      minimalTrust ≤ c.2 ∧ c.2 ≤ 1 := by
  obtain ⟨h1, h2, h3, h4⟩ :=
    Control.outPower_bounds minimalTrust targetThrust targetTrustVector hm1
  rw [Control.updateMotorPower_eq]
  refine ⟨rfl, ?_⟩
  intro c hc
  simp only [List.mem_cons, List.mem_singleton, List.not_mem_nil, or_false] at hc
  rcases hc with rfl | rfl | rfl | rfl
  · exact h1
  · exact h2
  · exact h3
  · exact h4

/-- Witness of C1 (rationals): `minimalTrust = 0.05`, `targetThrust = 0.5`, vector
`(0.3, 0.3, 0)`. -/
theorem Control.updateMotorPower_within_bounds_witness :
    ((0 : ℚ) ≤ 1 / 20 ∧ (1 / 20 : ℚ) < 1 ∧ (0 : ℚ) ≤ 1 / 2 ∧ (1 / 2 : ℚ) ≤ 1) ∧
    ((Control.updateMotorPower (1 / 20 : ℚ) (1 / 2) ⟨3 / 10, 3 / 10, 0⟩).map Prod.fst
        = [0, 1, 2, 3] ∧
     ∀ c ∈ Control.updateMotorPower (1 / 20 : ℚ) (1 / 2) ⟨3 / 10, 3 / 10, 0⟩,
      (1 / 20 : ℚ) ≤ c.2 ∧ c.2 ≤ 1) :=
  ⟨by norm_num,
   Control.updateMotorPower_within_bounds (1 / 20 : ℚ) (1 / 2) ⟨3 / 10, 3 / 10, 0⟩
     (by norm_num) (by norm_num) (by norm_num) (by norm_num)⟩

/-- C2: saturated case.  When the raw span `len` exceeds `1 - minimalTrust` (with
`minimalTrust` in `[0,1)`), the output span `max - min` is exactly `1 - minimalTrust`, the
smallest output is `minimalTrust`, the largest is `1`, and for all rotors `i`, `j`,
`raw_i ≤ raw_j` implies `out_i ≤ out_j`. -/
theorem Control.updateMotorPower_saturated_span (minimalTrust targetThrust : K)
    (targetTrustVector : Vector3f K)
    (_hm0 : 0 ≤ minimalTrust) (hm1 : minimalTrust < 1)
    (hsat : 1 - minimalTrust < Control.len targetTrustVector) :
    Control.maxTrust (Control.outPower minimalTrust targetThrust targetTrustVector)
      - Control.minThrust (Control.outPower minimalTrust targetThrust targetTrustVector)
      = 1 - minimalTrust ∧
    Control.minThrust (Control.outPower minimalTrust targetThrust targetTrustVector)
      = minimalTrust ∧
    Control.maxTrust (Control.outPower minimalTrust targetThrust targetTrustVector) = 1 ∧
    ∀ i j : Fin 4,
      (Control.rawPower targetTrustVector).get i ≤ (Control.rawPower targetTrustVector).get j →
      (Control.outPower minimalTrust targetThrust targetTrustVector).get i
        ≤ (Control.outPower minimalTrust targetThrust targetTrustVector).get j := by
  have hl : 0 < Control.len targetTrustVector := by linarith
  have hmono := Control.saturated_monotone minimalTrust
    (Control.minThrust (Control.rawPower targetTrustVector)) (Control.len targetTrustVector)
    hm1 hl
  rw [Control.outPower_saturated minimalTrust targetThrust targetTrustVector hsat]
  have hmin : Control.minThrust ((Control.rawPower targetTrustVector).map fun v =>
      (v - Control.minThrust (Control.rawPower targetTrustVector))
        * ((1 - minimalTrust) / Control.len targetTrustVector) + minimalTrust)
      = minimalTrust := by
    rw [Control.minThrust_map _ hmono]
    simp
  have hmax : Control.maxTrust ((Control.rawPower targetTrustVector).map fun v =>
      (v - Control.minThrust (Control.rawPower targetTrustVector))
        * ((1 - minimalTrust) / Control.len targetTrustVector) + minimalTrust) = 1 := by
    rw [Control.maxTrust_map _ hmono]
    have h4 : (Control.maxTrust (Control.rawPower targetTrustVector)
        - Control.minThrust (Control.rawPower targetTrustVector))
        * ((1 - minimalTrust) / Control.len targetTrustVector) = 1 - minimalTrust := by
      have hne : Control.len targetTrustVector ≠ 0 := hl.ne.symm
      unfold Control.len at hne ⊢
      field_simp
    show (Control.maxTrust (Control.rawPower targetTrustVector)
        - Control.minThrust (Control.rawPower targetTrustVector))
        * ((1 - minimalTrust) / Control.len targetTrustVector) + minimalTrust = 1
    linarith
  refine ⟨by rw [hmin, hmax], hmin, hmax, ?_⟩
  intro i j hij
  rw [MotorPower.get_map, MotorPower.get_map]
  exact hmono hij

/-- Witness of C2 (rationals): vector `(0.3, 0.3, 0)` with `minimalTrust = 0.05` has raw
span `1.2`; the output span is `0.95` and the smallest output is `0.05`. -/
theorem Control.updateMotorPower_saturated_span_witness :
    Control.len (⟨3 / 10, 3 / 10, 0⟩ : Vector3f ℚ) = 6 / 5 ∧
    Control.maxTrust (Control.outPower (1 / 20 : ℚ) (1 / 2) ⟨3 / 10, 3 / 10, 0⟩)
      - Control.minThrust (Control.outPower (1 / 20 : ℚ) (1 / 2) ⟨3 / 10, 3 / 10, 0⟩)
      = 19 / 20 ∧
    Control.minThrust (Control.outPower (1 / 20 : ℚ) (1 / 2) ⟨3 / 10, 3 / 10, 0⟩) = 1 / 20 := by
  have hlen : Control.len (⟨3 / 10, 3 / 10, 0⟩ : Vector3f ℚ) = 6 / 5 := by
    norm_num [Control.len, Control.maxTrust, Control.minThrust, Control.rawPower, stdMin,
      stdMax]
  have h := Control.updateMotorPower_saturated_span (1 / 20 : ℚ) (1 / 2) ⟨3 / 10, 3 / 10, 0⟩
    (by norm_num) (by norm_num) (by rw [hlen]; norm_num)
  refine ⟨hlen, ?_, h.2.1⟩
  rw [h.1]
  norm_num

/-- C3: unsaturated case.  When the raw span `len` is at most `1 - minimalTrust`, for every
target thrust the output span `max - min` equals the raw span `max - min`, and every
pairwise difference between two rotor powers equals the corresponding raw difference. -/
theorem Control.updateMotorPower_unsaturated_span (minimalTrust targetThrust : K)
    (targetTrustVector : Vector3f K)
    (hunsat : Control.len targetTrustVector ≤ 1 - minimalTrust) :
    Control.maxTrust (Control.outPower minimalTrust targetThrust targetTrustVector)
      - Control.minThrust (Control.outPower minimalTrust targetThrust targetTrustVector)
      = Control.maxTrust (Control.rawPower targetTrustVector)
        - Control.minThrust (Control.rawPower targetTrustVector) ∧
    ∀ i j : Fin 4,
      (Control.outPower minimalTrust targetThrust targetTrustVector).get i
        - (Control.outPower minimalTrust targetThrust targetTrustVector).get j
      = (Control.rawPower targetTrustVector).get i
        - (Control.rawPower targetTrustVector).get j := by
  rw [Control.outPower_unsaturated minimalTrust targetThrust targetTrustVector hunsat]
  constructor
  · rw [Control.minThrust_map _ (Control.unsaturated_monotone _ _),
      Control.maxTrust_map _ (Control.unsaturated_monotone _ _)]
    ring
  · intro i j
    rw [MotorPower.get_map, MotorPower.get_map]
    ring

/-- Witness of C3 (rationals): vector `(0.2, 0, 0)`, `minimalTrust = 0.05`,
`targetThrust = 0.5`; raw span and output span are both `0.4`. -/
theorem Control.updateMotorPower_unsaturated_span_witness :
    Control.len (⟨1 / 5, 0, 0⟩ : Vector3f ℚ) = 2 / 5 ∧
    Control.maxTrust (Control.outPower (1 / 20 : ℚ) (1 / 2) ⟨1 / 5, 0, 0⟩)
      - Control.minThrust (Control.outPower (1 / 20 : ℚ) (1 / 2) ⟨1 / 5, 0, 0⟩) = 2 / 5 := by
  have hlen : Control.len (⟨1 / 5, 0, 0⟩ : Vector3f ℚ) = 2 / 5 := by
    norm_num [Control.len, Control.maxTrust, Control.minThrust, Control.rawPower, stdMin,
      stdMax]
  have h := Control.updateMotorPower_unsaturated_span (1 / 20 : ℚ) (1 / 2) ⟨1 / 5, 0, 0⟩
    (by rw [hlen]; norm_num)
  refine ⟨hlen, ?_⟩
  rw [h.1]
  exact hlen

/-- C4: unsaturated case.  When the raw span `len` is at most `1 - minimalTrust`, every
rotor power equals `raw_i - min(raw) + adder` with
`adder = max(minimalTrust, min(1 - len, targetThrust))`; the least-demand rotor sits exactly
at `adder`; and whenever `minimalTrust ≤ targetThrust ≤ 1 - len` the least-demand rotor's
power equals `targetThrust`. -/
theorem Control.updateMotorPower_unsaturated_adder (minimalTrust targetThrust : K)
    (targetTrustVector : Vector3f K)
    (hunsat : Control.len targetTrustVector ≤ 1 - minimalTrust) :
    (∀ i : Fin 4,
      (Control.outPower minimalTrust targetThrust targetTrustVector).get i
        = (Control.rawPower targetTrustVector).get i
          - Control.minThrust (Control.rawPower targetTrustVector)
          + max minimalTrust (min (1 - Control.len targetTrustVector) targetThrust)) ∧
    Control.minThrust (Control.outPower minimalTrust targetThrust targetTrustVector)
      = max minimalTrust (min (1 - Control.len targetTrustVector) targetThrust) ∧
    (minimalTrust ≤ targetThrust → targetThrust ≤ 1 - Control.len targetTrustVector →
      Control.minThrust (Control.outPower minimalTrust targetThrust targetTrustVector)
        = targetThrust) := by
  have hadd : Control.adder minimalTrust targetThrust (Control.len targetTrustVector)
      = max minimalTrust (min (1 - Control.len targetTrustVector) targetThrust) := by
    rw [Control.adder, stdMax_eq_max, stdMin_eq_min]
  have hmin : Control.minThrust (Control.outPower minimalTrust targetThrust targetTrustVector)
      = max minimalTrust (min (1 - Control.len targetTrustVector) targetThrust) := by
    rw [Control.outPower_unsaturated minimalTrust targetThrust targetTrustVector hunsat,
      Control.minThrust_map _ (Control.unsaturated_monotone _ _), hadd]
    simp
  refine ⟨?_, hmin, ?_⟩
  · intro i
    rw [Control.outPower_unsaturated minimalTrust targetThrust targetTrustVector hunsat,
      MotorPower.get_map, hadd]
  · intro h1 h2
    rw [hmin, min_eq_right h2, max_eq_right h1]

/-- Witnesses of C4 (rationals, `minimalTrust = 0.05`, `targetThrust = 0.5`): vector
`(0,0,0)` gives all four powers `0.5`; vector `(0.2,0,0)` gives frontRight `0.9`, backLeft
`0.5`, frontLeft `0.9`, backRight `0.5`. -/
theorem Control.updateMotorPower_unsaturated_adder_witness :
    Control.updateMotorPower (1 / 20 : ℚ) (1 / 2) ⟨0, 0, 0⟩
      = [(0, 1 / 2), (1, 1 / 2), (2, 1 / 2), (3, 1 / 2)] ∧
    Control.updateMotorPower (1 / 20 : ℚ) (1 / 2) ⟨1 / 5, 0, 0⟩
      = [(0, 9 / 10), (1, 1 / 2), (2, 9 / 10), (3, 1 / 2)] := by
  have hlen0 : Control.len (⟨0, 0, 0⟩ : Vector3f ℚ) = 0 := by
    norm_num [Control.len, Control.maxTrust, Control.minThrust, Control.rawPower, stdMin,
      stdMax]
  have hmin0 : Control.minThrust (Control.rawPower (⟨0, 0, 0⟩ : Vector3f ℚ)) = 0 := by
    norm_num [Control.minThrust, Control.rawPower, stdMin]
  have hlen1 : Control.len (⟨1 / 5, 0, 0⟩ : Vector3f ℚ) = 2 / 5 := by
    norm_num [Control.len, Control.maxTrust, Control.minThrust, Control.rawPower, stdMin,
      stdMax]
  have hmin1 : Control.minThrust (Control.rawPower (⟨1 / 5, 0, 0⟩ : Vector3f ℚ)) = -(1 / 5) := by
    norm_num [Control.minThrust, Control.rawPower, stdMin]
  have h0 := (Control.updateMotorPower_unsaturated_adder (1 / 20 : ℚ) (1 / 2) ⟨0, 0, 0⟩
    (by rw [hlen0]; norm_num)).1
  have h1 := (Control.updateMotorPower_unsaturated_adder (1 / 20 : ℚ) (1 / 2) ⟨1 / 5, 0, 0⟩
    (by rw [hlen1]; norm_num)).1
  rw [hlen0, hmin0] at h0
  rw [hlen1, hmin1] at h1
  have a0 := h0 0
  have a1 := h0 1
  have a2 := h0 2
  have a3 := h0 3
  have b0 := h1 0
  have b1 := h1 1
  have b2 := h1 2
  have b3 := h1 3
  simp only [MotorPower.get] at a0 a1 a2 a3 b0 b1 b2 b3
  rw [Control.updateMotorPower_eq, Control.updateMotorPower_eq, a0, a1, a2, a3, b0, b1, b2, b3]
  norm_num [Control.rawPower]

/-- C5: applying the X-quad sign table back to the four output powers
(roll `FR - BL + FL - BR`, pitch `-FR + BL + FL - BR`, yaw `-FR - BL + FL + BR`) yields
`4 * k * (x, y, z)` for one common factor `k`, where `k = 1` in the unsaturated case and
`k = (1 - minimalTrust) / len` in the saturated case; `targetThrust` does not occur in the
three results. -/
theorem Control.updateMotorPower_torque_ratio (minimalTrust targetThrust : K)
    (targetTrustVector : Vector3f K) :
    (Control.outPower minimalTrust targetThrust targetTrustVector).frontRight
      - (Control.outPower minimalTrust targetThrust targetTrustVector).backLeft
      + (Control.outPower minimalTrust targetThrust targetTrustVector).frontLeft
      - (Control.outPower minimalTrust targetThrust targetTrustVector).backRight
      = 4 * (if Control.len targetTrustVector ≤ 1 - minimalTrust then 1
              else (1 - minimalTrust) / Control.len targetTrustVector) * targetTrustVector.x ∧
    -(Control.outPower minimalTrust targetThrust targetTrustVector).frontRight
      + (Control.outPower minimalTrust targetThrust targetTrustVector).backLeft
      + (Control.outPower minimalTrust targetThrust targetTrustVector).frontLeft
      - (Control.outPower minimalTrust targetThrust targetTrustVector).backRight
      = 4 * (if Control.len targetTrustVector ≤ 1 - minimalTrust then 1
              else (1 - minimalTrust) / Control.len targetTrustVector) * targetTrustVector.y ∧
    -(Control.outPower minimalTrust targetThrust targetTrustVector).frontRight
      - (Control.outPower minimalTrust targetThrust targetTrustVector).backLeft
      + (Control.outPower minimalTrust targetThrust targetTrustVector).frontLeft
      + (Control.outPower minimalTrust targetThrust targetTrustVector).backRight
      = 4 * (if Control.len targetTrustVector ≤ 1 - minimalTrust then 1
              else (1 - minimalTrust) / Control.len targetTrustVector) * targetTrustVector.z := by
  rcases lt_or_le (1 - minimalTrust) (Control.len targetTrustVector) with h | h
  · rw [Control.outPower_saturated minimalTrust targetThrust targetTrustVector h,
      if_neg (not_le.mpr h)]
    simp only [MotorPower.map, Control.rawPower]
    refine ⟨?_, ?_, ?_⟩ <;> ring
  · rw [Control.outPower_unsaturated minimalTrust targetThrust targetTrustVector h, if_pos h]
    simp only [MotorPower.map, Control.rawPower]
    refine ⟨?_, ?_, ?_⟩ <;> ring

end MixerClaims

section ControllerLemmas

variable {K : Type} [LinearOrderedField K]

theorem Control.angleStage_axis {P : Type} (calculate : P → Option K → K → K → Option K × P)
    (angleModes : Fin 3 → AngleControlMode) (anglePid : Fin 3 → P)
    (e : Option (Vector3f K)) (target : Vector3f (Option K)) (axis : Fin 3) :
    (Control.angleStage calculate angleModes anglePid e target).1.get axis
      = (if angleModes axis = AngleControlMode.angle
          then (calculate (anglePid axis) (e.map fun v => v.get axis) 0 0).1
          else target.get axis) ∧
    (Control.angleStage calculate angleModes anglePid e target).2 axis
      = (if angleModes axis = AngleControlMode.angle
          then (calculate (anglePid axis) (e.map fun v => v.get axis) 0 0).2
          else anglePid axis) := by
  by_cases h0 : angleModes 0 = AngleControlMode.angle <;>
  by_cases h1 : angleModes 1 = AngleControlMode.angle <;>
  by_cases h2 : angleModes 2 = AngleControlMode.angle <;>
  fin_cases axis <;>
  simp [Control.angleStage, Control.angleStep, Vector3f.set, Vector3f.get, Function.update,
    h0, h1, h2]

theorem Quaternionf.one_mul (q : Quaternionf K) : (⟨1, 0, 0, 0⟩ : Quaternionf K) * q = q := by
  cases q
  simp [Quaternionf.mul_def, Quaternionf.mul]

theorem Quaternionf.mul_one (q : Quaternionf K) : q * (⟨1, 0, 0, 0⟩ : Quaternionf K) = q := by
  cases q
  simp [Quaternionf.mul_def, Quaternionf.mul]

theorem Quaternionf.squaredNorm_mul (p q : Quaternionf K) :
    (p * q).squaredNorm = p.squaredNorm * q.squaredNorm := by
  simp only [Quaternionf.mul_def, Quaternionf.mul, Quaternionf.squaredNorm]
  ring

theorem Quaternionf.squaredNorm_conjugate (q : Quaternionf K) :
    q.conjugate.squaredNorm = q.squaredNorm := by
  simp only [Quaternionf.conjugate, Quaternionf.squaredNorm]
  ring

theorem Quaternionf.inverse_of_unit (q : Quaternionf K) (hq : q.squaredNorm = 1) :
    q.inverse = q.conjugate := by
  simp [Quaternionf.inverse, hq]

theorem dcm_z_squaredNorm (q : Quaternionf K) :
    (dcm_z q).squaredNorm = q.squaredNorm ^ 2 := by
  simp only [dcm_z, Vector3f.squaredNorm, Quaternionf.squaredNorm]
  ring

theorem dcm_z_neg (q : Quaternionf K) : dcm_z q.neg = dcm_z q := by
  simp only [dcm_z, Quaternionf.neg, Vector3f.mk.injEq]
  refine ⟨?_, ?_, ?_⟩ <;> ring

theorem dcm_z_mul (p q : Quaternionf K) :
    dcm_z (p * q) = (p * Quaternionf.ofVec (dcm_z q) * p.conjugate).vec := by
  simp only [dcm_z, Quaternionf.mul_def, Quaternionf.mul, Quaternionf.ofVec,
    Quaternionf.conjugate, Quaternionf.vec, Vector3f.mk.injEq]
  refine ⟨?_, ?_, ?_⟩ <;> ring

theorem stdClamp_neg (v : K) : stdClamp (-v) (-1) 1 = -stdClamp v (-1) 1 := by
  unfold stdClamp
  split_ifs <;> first | rfl | linarith

theorem stdClamp_of_mem (v lo hi : K) (h1 : lo ≤ v) (h2 : v ≤ hi) : stdClamp v lo hi = v := by
  unfold stdClamp
  rw [if_neg (not_lt.mpr h1), if_neg (not_lt.mpr h2)]

theorem Quaternionf.neg_mul (a b : Quaternionf K) : a.neg * b = (a * b).neg := by
  simp only [Quaternionf.mul_def, Quaternionf.mul, Quaternionf.neg, Quaternionf.mk.injEq]
  refine ⟨?_, ?_, ?_, ?_⟩ <;> ring

theorem Quaternionf.mul_neg (a b : Quaternionf K) : a * b.neg = (a * b).neg := by
  simp only [Quaternionf.mul_def, Quaternionf.mul, Quaternionf.neg, Quaternionf.mk.injEq]
  refine ⟨?_, ?_, ?_, ?_⟩ <;> ring

theorem Quaternionf.neg_twice (a : Quaternionf K) : a.neg.neg = a := by
  cases a
  simp [Quaternionf.neg]

theorem Quaternionf.conjugate_neg (a : Quaternionf K) : a.neg.conjugate = a.conjugate.neg := by
  simp [Quaternionf.neg, Quaternionf.conjugate]

theorem Quaternionf.vec_neg (a : Quaternionf K) : a.neg.vec = a.vec.neg := by
  simp [Quaternionf.neg, Quaternionf.vec, Vector3f.neg]

theorem Quaternionf.squaredNorm_neg (a : Quaternionf K) : a.neg.squaredNorm = a.squaredNorm := by
  simp only [Quaternionf.neg, Quaternionf.squaredNorm]
  ring

theorem Quaternionf.inverse_neg (a : Quaternionf K) : a.neg.inverse = a.inverse.neg := by
  unfold Quaternionf.inverse
  rw [Quaternionf.squaredNorm_neg]
  split_ifs
  · simp only [Quaternionf.neg, Quaternionf.conjugate, Quaternionf.mk.injEq]
    refine ⟨?_, ?_, ?_, ?_⟩ <;> ring
  · simp [Quaternionf.neg]

theorem Vector3f.scale_neg (s : K) (v : Vector3f K) :
    Vector3f.scale s v.neg = (Vector3f.scale s v).neg := by
  simp [Vector3f.scale, Vector3f.neg]

theorem Vector3f.neg_cancel (v : Vector3f K) : v.neg.neg = v := by
  cases v
  simp [Vector3f.neg]

theorem Control.q_mix_neg (qte qd : Quaternionf K) :
    Control.q_mix qte.neg qd = (Control.q_mix qte qd).neg := by
  simp only [Control.q_mix, Quaternionf.inverse_neg, Quaternionf.neg_mul]
  simp only [Quaternionf.neg, stdClamp_neg]

theorem Control.angleErrorOf_neg (attitude qd : Quaternionf K) (hw : attitude.w ≠ 0) :
    Control.angleErrorOf attitude.neg qd = Control.angleErrorOf attitude qd := by
  simp only [Control.angleErrorOf, Quaternionf.conjugate_neg, Quaternionf.neg_mul,
    Quaternionf.vec_neg, Vector3f.scale_neg]
  have hnegw : attitude.neg.w = -attitude.w := rfl
  rw [hnegw]
  rcases lt_or_gt_of_ne hw with h | h
  · rw [if_neg (by linarith), if_pos h]
  · rw [if_pos (by linarith), if_neg (by linarith), Vector3f.neg_cancel]

theorem Quaternionf.vec_ofVec (v : Vector3f K) : (Quaternionf.ofVec v).vec = v := by
  cases v
  rfl

theorem dcm_z_conjugate_rotate (p : Quaternionf K) :
    (p.conjugate * Quaternionf.ofVec (dcm_z p) * p.conjugate.conjugate).vec
      = ⟨0, 0, p.squaredNorm ^ 2⟩ := by
  simp only [dcm_z, Quaternionf.mul_def, Quaternionf.mul, Quaternionf.ofVec,
    Quaternionf.conjugate, Quaternionf.vec, Quaternionf.squaredNorm, Vector3f.mk.injEq]
  refine ⟨?_, ?_, ?_⟩ <;> ring

/-- Two unit quaternions with the same thrust axis differ by a rotation about the body
z-axis. -/
theorem Quaternionf.yaw_only_of_same_axis (p q : Quaternionf K) (hp : p.squaredNorm = 1)
    (hq : q.squaredNorm = 1) (h : dcm_z p = dcm_z q) :
    (p.conjugate * q).x = 0 ∧ (p.conjugate * q).y = 0 := by
  have hm : (p.conjugate * q).squaredNorm = 1 := by
    rw [Quaternionf.squaredNorm_mul, Quaternionf.squaredNorm_conjugate, hp, hq]
    norm_num
  have hz : dcm_z (p.conjugate * q) = ⟨0, 0, 1⟩ := by
    rw [dcm_z_mul, ← h, dcm_z_conjugate_rotate, hp]
    norm_num
  have hz3 : (dcm_z (p.conjugate * q)).z = 1 := by rw [hz]
  simp only [dcm_z] at hz3
  simp only [Quaternionf.squaredNorm] at hm
  have hsum : (p.conjugate * q).x * (p.conjugate * q).x
      + (p.conjugate * q).y * (p.conjugate * q).y = 0 := by linarith
  have hx : (p.conjugate * q).x * (p.conjugate * q).x = 0 := by
    nlinarith [mul_self_nonneg (p.conjugate * q).x, mul_self_nonneg (p.conjugate * q).y]
  have hy : (p.conjugate * q).y * (p.conjugate * q).y = 0 := by
    nlinarith [mul_self_nonneg (p.conjugate * q).x, mul_self_nonneg (p.conjugate * q).y]
  exact ⟨mul_self_eq_zero.mp hx, mul_self_eq_zero.mp hy⟩

end ControllerLemmas

section RealLemmas

theorem from2vec_of_unit (u v : Vector3f ℝ) (hu : u.squaredNorm = 1) (hv : v.squaredNorm = 1)
    (hc : -1 < u.dot v) :
    from2vec Real.sqrt u v = some
      ⟨(u.dot v + 1) * (Real.sqrt (2 * (1 + u.dot v)))⁻¹,
       (u.cross v).x * (Real.sqrt (2 * (1 + u.dot v)))⁻¹,
       (u.cross v).y * (Real.sqrt (2 * (1 + u.dot v)))⁻¹,
       (u.cross v).z * (Real.sqrt (2 * (1 + u.dot v)))⁻¹⟩ := by
  have hN := from2vecRaw_squaredNorm_unit u v hu hv
  have hNpos : 0 < 2 * (1 + u.dot v) := by linarith
  rw [from2vec, Quaternionf.normalize, hN, if_neg hNpos.ne.symm, from2vecRaw_unit u v hu hv]
  simp only [div_eq_mul_inv]

theorem from2vec_inv_sqrt (c : ℝ) (hc : -1 < c) :
    0 < (Real.sqrt (2 * (1 + c)))⁻¹ ∧
    (Real.sqrt (2 * (1 + c)))⁻¹ * (Real.sqrt (2 * (1 + c)))⁻¹ * (2 * (1 + c)) = 1 := by
  have hNpos : 0 < 2 * (1 + c) := by linarith
  refine ⟨inv_pos.mpr (Real.sqrt_pos.mpr hNpos), ?_⟩
  rw [← mul_inv, Real.mul_self_sqrt hNpos.le]
  exact inv_mul_cancel₀ hNpos.ne.symm

theorem from2vec_same (u : Vector3f ℝ) (hu : u.squaredNorm = 1) :
    from2vec Real.sqrt u u = some ⟨1, 0, 0, 0⟩ := by
  have hdot : u.dot u = 1 := hu
  have h4 : Real.sqrt (2 * (1 + 1)) = 2 := by
    rw [show (2 * (1 + 1) : ℝ) = 2 ^ 2 by norm_num]
    exact Real.sqrt_sq (by norm_num)
  rw [from2vec_of_unit u u hu hu (by rw [hdot]; norm_num), hdot, h4]
  simp only [Vector3f.cross, Option.some.injEq, Quaternionf.mk.injEq]
  refine ⟨by norm_num, ?_, ?_, ?_⟩ <;> ring

theorem Control.tiltGuard_one : Control.tiltGuard (⟨1, 0, 0, 0⟩ : Quaternionf ℝ) = false := by
  simp only [Control.tiltGuard, decide_eq_false_iff_not]
  norm_num

theorem Control.q_tiltError_same_axis (attitude qd : Quaternionf ℝ)
    (ha : attitude.squaredNorm = 1) (h : dcm_z qd = dcm_z attitude) :
    Control.q_tiltError Real.sqrt attitude qd = some attitude := by
  have hu : (dcm_z attitude).squaredNorm = 1 := by rw [dcm_z_squaredNorm, ha]; norm_num
  simp only [Control.q_tiltError, h, from2vec_same _ hu, Option.map_some',
    Control.tiltGuard_one, Quaternionf.one_mul]
  simp

theorem Control.angleError_same_axis (yawWeight : ℝ) (attitude qd : Quaternionf ℝ)
    (ha : attitude.squaredNorm = 1) (h : dcm_z qd = dcm_z attitude) :
    Control.angleError Real.sqrt Real.cos Real.sin Real.arccos Real.arcsin yawWeight
        attitude qd
      = some (Control.angleErrorOf attitude
          (Control.qdFinal Real.cos Real.sin Real.arccos Real.arcsin yawWeight attitude qd)) := by
  simp only [Control.angleError, Control.q_tiltError_same_axis attitude qd ha h,
    Option.map_some']

theorem Control.angleError_one_one (yawWeight : ℝ) :
    Control.angleError Real.sqrt Real.cos Real.sin Real.arccos Real.arcsin yawWeight
        ⟨1, 0, 0, 0⟩ ⟨1, 0, 0, 0⟩ = some ⟨0, 0, 0⟩ := by
  rw [Control.angleError_same_axis yawWeight _ _ (by norm_num [Quaternionf.squaredNorm]) rfl]
  have hinv : (⟨1, 0, 0, 0⟩ : Quaternionf ℝ).inverse = ⟨1, 0, 0, 0⟩ := by
    rw [Quaternionf.inverse_of_unit _ (by norm_num [Quaternionf.squaredNorm])]
    simp [Quaternionf.conjugate]
  have hmix : Control.q_mix (⟨1, 0, 0, 0⟩ : Quaternionf ℝ) ⟨1, 0, 0, 0⟩ = ⟨1, 0, 0, 0⟩ := by
    simp only [Control.q_mix, hinv, Quaternionf.one_mul]
    norm_num [stdClamp]
  simp only [Control.qdFinal, hmix, Control.yawBlend, Real.arccos_one, Real.arcsin_zero,
    mul_zero, Real.cos_zero, Real.sin_zero, Quaternionf.one_mul, Control.angleErrorOf]
  norm_num [Quaternionf.conjugate, Quaternionf.mul_def, Quaternionf.mul, Quaternionf.vec,
    Vector3f.scale]

theorem Control.q_tiltError_of_not_guard {K : Type} [LinearOrderedField K] (sqrt : K → K)
    (attitude qd q : Quaternionf K) (hq : from2vec sqrt (dcm_z attitude) (dcm_z qd) = some q)
    (hg : Control.tiltGuard q = false) :
    Control.q_tiltError sqrt attitude qd = some (q * attitude) := by
  simp [Control.q_tiltError, hq, hg]

theorem Control.q_tiltError_of_guard {K : Type} [LinearOrderedField K] (sqrt : K → K)
    (attitude qd q : Quaternionf K) (hq : from2vec sqrt (dcm_z attitude) (dcm_z qd) = some q)
    (hg : Control.tiltGuard q = true) :
    Control.q_tiltError sqrt attitude qd = some qd := by
  simp [Control.q_tiltError, hq, hg]

theorem Control.yawBlend_zero (acos asin : ℝ → ℝ) (m : Quaternionf ℝ) :
    Control.yawBlend Real.cos Real.sin acos asin 0 m = ⟨1, 0, 0, 0⟩ := by
  simp [Control.yawBlend]

theorem Control.qdFinal_zero (acos asin : ℝ → ℝ) (qte qd : Quaternionf ℝ) :
    Control.qdFinal Real.cos Real.sin acos asin 0 qte qd = qte := by
  rw [Control.qdFinal, Control.yawBlend_zero, Quaternionf.mul_one]

theorem from2vec_tilt_example :
    from2vec Real.sqrt (dcm_z (⟨1, 0, 0, 0⟩ : Quaternionf ℝ))
      (dcm_z (⟨4 / 5, 3 / 5, 0, 0⟩ : Quaternionf ℝ)) = some ⟨4 / 5, 3 / 5, 0, 0⟩ := by
  have h1 : dcm_z (⟨1, 0, 0, 0⟩ : Quaternionf ℝ) = ⟨0, 0, 1⟩ := by simp [dcm_z]
  have h2 : dcm_z (⟨4 / 5, 3 / 5, 0, 0⟩ : Quaternionf ℝ) = ⟨0, -(24 / 25), 7 / 25⟩ := by
    simp only [dcm_z, Vector3f.mk.injEq]
    norm_num
  have hdot : (⟨0, 0, 1⟩ : Vector3f ℝ).dot ⟨0, -(24 / 25), 7 / 25⟩ = 7 / 25 := by
    norm_num [Vector3f.dot]
  have hs : Real.sqrt (2 * (1 + 7 / 25)) = 8 / 5 := by
    rw [show (2 * (1 + 7 / 25) : ℝ) = (8 / 5) ^ 2 by norm_num]
    exact Real.sqrt_sq (by norm_num)
  rw [h1, h2, from2vec_of_unit _ _ (by norm_num [Vector3f.squaredNorm])
    (by norm_num [Vector3f.squaredNorm]) (by rw [hdot]; norm_num), hdot, hs]
  simp only [Vector3f.cross, Option.some.injEq, Quaternionf.mk.injEq]
  norm_num

theorem Control.tiltGuard_tilt_example :
    Control.tiltGuard (⟨4 / 5, 3 / 5, 0, 0⟩ : Quaternionf ℝ) = false := by
  simp only [Control.tiltGuard, decide_eq_false_iff_not]
  norm_num [abs_of_nonneg]

theorem Control.angleError_zero_of_not_guard (attitude qd q : Quaternionf ℝ)
    (hq : from2vec Real.sqrt (dcm_z attitude) (dcm_z qd) = some q)
    (hg : Control.tiltGuard q = false) :
    Control.angleError Real.sqrt Real.cos Real.sin Real.arccos Real.arcsin 0 attitude qd
      = some (Control.angleErrorOf attitude (q * attitude)) := by
  simp only [Control.angleError,
    Control.q_tiltError_of_not_guard Real.sqrt attitude qd q hq hg, Option.map_some',
    Control.qdFinal_zero]

theorem Control.yawBlend_one_neg (m : Quaternionf ℝ) :
    Control.yawBlend Real.cos Real.sin Real.arccos Real.arcsin 1 m.neg
      = (Control.yawBlend Real.cos Real.sin Real.arccos Real.arcsin 1 m).neg := by
  simp only [Control.yawBlend, Quaternionf.neg, one_mul, Real.arccos_neg, Real.cos_pi_sub,
    Real.arcsin_neg, Real.sin_neg, neg_zero]

theorem Control.qdFinal_one_neg (qte qd : Quaternionf ℝ) :
    Control.qdFinal Real.cos Real.sin Real.arccos Real.arcsin 1 qte.neg qd
      = Control.qdFinal Real.cos Real.sin Real.arccos Real.arcsin 1 qte qd := by
  simp only [Control.qdFinal, Control.q_mix_neg, Control.yawBlend_one_neg, Quaternionf.neg_mul,
    Quaternionf.mul_neg, Quaternionf.neg_twice]

theorem from2vec_result_unit (u v : Vector3f ℝ) (i : ℝ) (hu : u.squaredNorm = 1)
    (hv : v.squaredNorm = 1) (hi : i * i * (2 * (1 + u.dot v)) = 1) :
    (⟨(u.dot v + 1) * i, (u.cross v).x * i, (u.cross v).y * i, (u.cross v).z * i⟩ :
      Quaternionf ℝ).squaredNorm = 1 := by
  have hraw : (u.dot v + 1) * (u.dot v + 1) + (u.cross v).x * (u.cross v).x
      + (u.cross v).y * (u.cross v).y + (u.cross v).z * (u.cross v).z
      = 2 * (1 + u.dot v) := by
    rw [← from2vecRaw_squaredNorm_unit u v hu hv, from2vecRaw_unit u v hu hv,
      Quaternionf.squaredNorm]
  simp only [Quaternionf.squaredNorm]
  linear_combination (i * i) * hraw + hi

/-- For unit quaternions with thrust axes that are not anti-parallel, `from2vec` returns a
unit quaternion that carries the current thrust axis onto the desired one. -/
theorem from2vec_dcm_z (attitude qd : Quaternionf ℝ) (ha : attitude.squaredNorm = 1)
    (hd : qd.squaredNorm = 1) (hne : dcm_z qd ≠ (dcm_z attitude).neg) :
    ∃ q : Quaternionf ℝ, from2vec Real.sqrt (dcm_z attitude) (dcm_z qd) = some q ∧
      q.squaredNorm = 1 ∧ dcm_z (q * attitude) = dcm_z qd := by
  have hu : (dcm_z attitude).squaredNorm = 1 := by rw [dcm_z_squaredNorm, ha]; norm_num
  have hv : (dcm_z qd).squaredNorm = 1 := by rw [dcm_z_squaredNorm, hd]; norm_num
  have hc := Vector3f.neg_one_lt_dot _ _ hu hv hne
  obtain ⟨_, hi⟩ := from2vec_inv_sqrt _ hc
  refine ⟨_, from2vec_of_unit _ _ hu hv hc, from2vec_result_unit _ _ _ hu hv hi, ?_⟩
  rw [dcm_z_mul, Quaternionf.rotate_from2vec _ _ _ hu hv hi, Quaternionf.vec_ofVec]

theorem Control.tiltGuard_of_axis_zero (q : Quaternionf ℝ) (hx : q.x = 0) (hy : q.y = 0) :
    Control.tiltGuard q = false := by
  simp only [Control.tiltGuard, decide_eq_false_iff_not, hx, hy]
  norm_num

theorem Control.angleError_antiparallel_example (yawWeight : ℝ) :
    Control.angleError Real.sqrt Real.cos Real.sin Real.arccos Real.arcsin yawWeight
      ⟨1, 0, 0, 0⟩ ⟨0, 1, 0, 0⟩ = none := by
  have h1 : dcm_z (⟨1, 0, 0, 0⟩ : Quaternionf ℝ) = ⟨0, 0, 1⟩ := by simp [dcm_z]
  have h2 : dcm_z (⟨0, 1, 0, 0⟩ : Quaternionf ℝ) = ⟨0, 0, -1⟩ := by simp [dcm_z]
  have hraw : from2vecRaw Real.sqrt (⟨0, 0, 1⟩ : Vector3f ℝ) ⟨0, 0, -1⟩ = ⟨0, 0, 0, 0⟩ := by
    simp [from2vecRaw, Vector3f.dot, Vector3f.cross, Vector3f.squaredNorm]
  have hnone : from2vec Real.sqrt (⟨0, 0, 1⟩ : Vector3f ℝ) ⟨0, 0, -1⟩ = none := by
    rw [from2vec, hraw, Quaternionf.normalize, if_pos (by simp [Quaternionf.squaredNorm])]
  simp only [Control.angleError, Control.q_tiltError, h1, h2, hnone, Option.map_none']

end RealLemmas

section ControllerClaims

variable {K : Type} [LinearOrderedField K]

/-- C11: for every state (target rate, current attitude, target attitude, PID states,
`yawWeight`, mode table; also a state in which the attitude error is `NaN`), after
`velocityHandler` every axis whose mode is `rate` has the `targetRate` component and the PID
state it had before the call, and every axis whose mode is `angle` holds the output of its
own angle PID called as `calculate(angleError[axis], 0, 0)`. -/
theorem Control.velocityHandler_rate_axes_pass_through {P : Type}
    (sqrt cos sin acos asin : K → K) (yawWeight : K)
    (calculate : P → Option K → K → K → Option K × P)
    (angleModes : Fin 3 → AngleControlMode) (anglePid : Fin 3 → P)
    (targetRate : Vector3f (Option K)) (attitude targetAttitude : Quaternionf K)
    (axis : Fin 3) :
    (angleModes axis = AngleControlMode.rate →
      (Control.velocityHandler sqrt cos sin acos asin yawWeight calculate angleModes anglePid
          targetRate attitude targetAttitude).1.get axis = targetRate.get axis ∧
      (Control.velocityHandler sqrt cos sin acos asin yawWeight calculate angleModes anglePid
          targetRate attitude targetAttitude).2 axis = anglePid axis) ∧
    (angleModes axis = AngleControlMode.angle →
      (Control.velocityHandler sqrt cos sin acos asin yawWeight calculate angleModes anglePid
          targetRate attitude targetAttitude).1.get axis
        = (calculate (anglePid axis)
            ((Control.angleError sqrt cos sin acos asin yawWeight attitude
              targetAttitude).map fun e => e.get axis) 0 0).1 ∧
      (Control.velocityHandler sqrt cos sin acos asin yawWeight calculate angleModes anglePid
          targetRate attitude targetAttitude).2 axis
        = (calculate (anglePid axis)
            ((Control.angleError sqrt cos sin acos asin yawWeight attitude
              targetAttitude).map fun e => e.get axis) 0 0).2) := by
  obtain ⟨h1, h2⟩ := Control.angleStage_axis calculate angleModes anglePid
    (Control.angleError sqrt cos sin acos asin yawWeight attitude targetAttitude)
    targetRate axis
  constructor
  · intro hm
    simp only [Control.velocityHandler]
    rw [h1, h2, hm]
    simp
  · intro hm
    simp only [Control.velocityHandler]
    rw [h1, h2, if_pos hm, if_pos hm]
    exact ⟨rfl, rfl⟩

end ControllerClaims

section ControllerRealClaims

/-- Witness of C11 (reals): level attitude `(1, 0, 0, 0)` and target `(0, 1, 0, 0)`, whose
thrust axes `(0, 0, 1)` and `(0, 0, -1)` are exactly anti-parallel, so that the attitude
error is `NaN`; roll in `rate` mode, pitch and yaw in `angle` mode, proportional angle PIDs
of gain `3`, prior target rate `(5, 6, 7)`: the roll rate is still `5` and the roll PID
state still `3`, the pitch rate is the PID output for a `NaN` error, `NaN`. -/
theorem Control.velocityHandler_rate_axes_pass_through_witness :
    (Control.velocityHandler Real.sqrt Real.cos Real.sin Real.arccos Real.arcsin 1
        Control.proportionalCalculate
        (fun axis => if axis = 0 then AngleControlMode.rate else AngleControlMode.angle)
        (fun _ => (3 : ℝ)) ⟨some 5, some 6, some 7⟩ ⟨1, 0, 0, 0⟩ ⟨0, 1, 0, 0⟩).1.get 0
      = some 5 ∧
    (Control.velocityHandler Real.sqrt Real.cos Real.sin Real.arccos Real.arcsin 1
        Control.proportionalCalculate
        (fun axis => if axis = 0 then AngleControlMode.rate else AngleControlMode.angle)
        (fun _ => (3 : ℝ)) ⟨some 5, some 6, some 7⟩ ⟨1, 0, 0, 0⟩ ⟨0, 1, 0, 0⟩).2 0 = 3 ∧
    (Control.velocityHandler Real.sqrt Real.cos Real.sin Real.arccos Real.arcsin 1
        Control.proportionalCalculate
        (fun axis => if axis = 0 then AngleControlMode.rate else AngleControlMode.angle)
        (fun _ => (3 : ℝ)) ⟨some 5, some 6, some 7⟩ ⟨1, 0, 0, 0⟩ ⟨0, 1, 0, 0⟩).1.get 1
      = none := by
  have h0 := (Control.velocityHandler_rate_axes_pass_through Real.sqrt Real.cos Real.sin
    Real.arccos Real.arcsin 1 Control.proportionalCalculate
    (fun axis => if axis = 0 then AngleControlMode.rate else AngleControlMode.angle)
    (fun _ => (3 : ℝ)) ⟨some 5, some 6, some 7⟩ ⟨1, 0, 0, 0⟩ ⟨0, 1, 0, 0⟩ 0).1 (by simp)
  have h1 := (Control.velocityHandler_rate_axes_pass_through Real.sqrt Real.cos Real.sin
    Real.arccos Real.arcsin 1 Control.proportionalCalculate
    (fun axis => if axis = 0 then AngleControlMode.rate else AngleControlMode.angle)
    (fun _ => (3 : ℝ)) ⟨some 5, some 6, some 7⟩ ⟨1, 0, 0, 0⟩ ⟨0, 1, 0, 0⟩ 1).2 (by simp)
  refine ⟨h0.1, h0.2, ?_⟩
  rw [h1.1, Control.angleError_antiparallel_example]
  simp [Control.proportionalCalculate]

/-- Counterexample to C12 (reals): level attitude, level target, all axes in `angle` mode,
proportional angle PIDs of gain `1`, prior target rate `(5, 0, 0)`.  The attitude error is
`(0, 0, 0)`, and the roll component of `targetRate` after `velocityHandler` is `0`, not its
prior value `5`. -/
theorem Control.velocityHandler_zero_error_counterexample :
    Control.angleError Real.sqrt Real.cos Real.sin Real.arccos Real.arcsin 1
      ⟨1, 0, 0, 0⟩ ⟨1, 0, 0, 0⟩ = some ⟨0, 0, 0⟩ ∧
    (Control.velocityHandler Real.sqrt Real.cos Real.sin Real.arccos Real.arcsin 1
      Control.proportionalCalculate (fun _ => AngleControlMode.angle)
      (fun _ => (1 : ℝ)) ⟨some 5, some 0, some 0⟩ ⟨1, 0, 0, 0⟩ ⟨1, 0, 0, 0⟩).1.get 0
      = some 0 ∧
    (Control.velocityHandler Real.sqrt Real.cos Real.sin Real.arccos Real.arcsin 1
      Control.proportionalCalculate (fun _ => AngleControlMode.angle)
      (fun _ => (1 : ℝ)) ⟨some 5, some 0, some 0⟩ ⟨1, 0, 0, 0⟩ ⟨1, 0, 0, 0⟩).1.get 0
      ≠ (⟨some 5, some 0, some 0⟩ : Vector3f (Option ℝ)).get 0 := by
  have hval : (Control.velocityHandler Real.sqrt Real.cos Real.sin Real.arccos Real.arcsin 1
      Control.proportionalCalculate (fun _ => AngleControlMode.angle)
      (fun _ => (1 : ℝ)) ⟨some 5, some 0, some 0⟩ ⟨1, 0, 0, 0⟩ ⟨1, 0, 0, 0⟩).1.get 0
      = some 0 := by
    simp only [Control.velocityHandler, Control.angleError_one_one]
    simp [Control.angleStage, Control.angleStep, Control.proportionalCalculate, Vector3f.get,
      Vector3f.set]
  refine ⟨Control.angleError_one_one 1, hval, ?_⟩
  rw [hval]
  simp [Vector3f.get]

/-- C12, amended: for every axis in `angle` mode, when the attitude error that
`velocityHandler` computes for that axis is zero, the axis's `targetRate` component after
`velocityHandler` is the output `calculate(0, 0, 0)` of that axis's angle PID, whatever the
prior target rate; it is `0` when that output is `0`, as for a proportional stage. -/
theorem Control.velocityHandler_zero_error {K : Type} [LinearOrderedField K] {P : Type}
    (sqrt cos sin acos asin : K → K) (yawWeight : K)
    (calculate : P → Option K → K → K → Option K × P)
    (angleModes : Fin 3 → AngleControlMode) (anglePid : Fin 3 → P)
    (targetRate : Vector3f (Option K))
    (attitude targetAttitude : Quaternionf K) (axis : Fin 3) (e : Vector3f K)
    (hmode : angleModes axis = AngleControlMode.angle)
    (he : Control.angleError sqrt cos sin acos asin yawWeight attitude targetAttitude = some e)
    (hzero : e.get axis = 0) :
    (Control.velocityHandler sqrt cos sin acos asin yawWeight calculate angleModes anglePid
        targetRate attitude targetAttitude).1.get axis
      = (calculate (anglePid axis) (some 0) 0 0).1 ∧
    ((calculate (anglePid axis) (some 0) 0 0).1 = some 0 →
      (Control.velocityHandler sqrt cos sin acos asin yawWeight calculate angleModes anglePid
        targetRate attitude targetAttitude).1.get axis = some 0) ∧
    ∀ targetRate2 : Vector3f (Option K),
      (Control.velocityHandler sqrt cos sin acos asin yawWeight calculate angleModes anglePid
        targetRate2 attitude targetAttitude).1.get axis
        = (Control.velocityHandler sqrt cos sin acos asin yawWeight calculate angleModes
            anglePid targetRate attitude targetAttitude).1.get axis := by
  have hval : ∀ t : Vector3f (Option K),
      (Control.velocityHandler sqrt cos sin acos asin yawWeight calculate angleModes anglePid
        t attitude targetAttitude).1.get axis
        = (calculate (anglePid axis) (some 0) 0 0).1 := by
    intro t
    simp only [Control.velocityHandler, he]
    rw [(Control.angleStage_axis calculate angleModes anglePid (some e) t axis).1,
      if_pos hmode, Option.map_some', hzero]
  refine ⟨hval targetRate, fun h0 => (hval targetRate).trans h0, fun t => ?_⟩
  rw [hval t, hval targetRate]

/-- Witness of C12, amended (reals): level attitude, level target, `angle` mode,
proportional PIDs of gain `1`, prior target rate `(5, 0, 0)`: the roll target rate after the
call is `0`. -/
theorem Control.velocityHandler_zero_error_witness :
    (Control.velocityHandler Real.sqrt Real.cos Real.sin Real.arccos Real.arcsin 1
      Control.proportionalCalculate (fun _ => AngleControlMode.angle) (fun _ => (1 : ℝ))
      ⟨some 5, some 0, some 0⟩ ⟨1, 0, 0, 0⟩ ⟨1, 0, 0, 0⟩).1.get 0 = some 0 :=
  (Control.velocityHandler_zero_error Real.sqrt Real.cos Real.sin Real.arccos Real.arcsin 1
    Control.proportionalCalculate (fun _ => AngleControlMode.angle) (fun _ => (1 : ℝ))
    ⟨some 5, some 0, some 0⟩ ⟨1, 0, 0, 0⟩ ⟨1, 0, 0, 0⟩ 0 ⟨0, 0, 0⟩ rfl
    (Control.angleError_one_one 1) rfl).2.1 (by simp [Control.proportionalCalculate])

/-- C14: with `yawWeight = 0` and the degenerate guard branch not taken, the blended target
attitude that `velocityHandler` computes is the reduced attitude
`from2vec(dcm_z(attitude), dcm_z(qd)) * attitude`, and for the same current attitude every
target attitude `qd2` with the same thrust axis `dcm_z(qd2) = dcm_z(qd)` gives the same
attitude error vector. -/
theorem Control.velocityHandler_yawWeight_zero (attitude qd q : Quaternionf ℝ)
    (hq : from2vec Real.sqrt (dcm_z attitude) (dcm_z qd) = some q)
    (hg : Control.tiltGuard q = false) :
    (Control.q_tiltError Real.sqrt attitude qd).map
        (fun qte => Control.qdFinal Real.cos Real.sin Real.arccos Real.arcsin 0 qte qd)
      = some (q * attitude) ∧
    Control.angleError Real.sqrt Real.cos Real.sin Real.arccos Real.arcsin 0 attitude qd
      = some (Control.angleErrorOf attitude (q * attitude)) ∧
    ∀ qd2 : Quaternionf ℝ, dcm_z qd2 = dcm_z qd →
      Control.angleError Real.sqrt Real.cos Real.sin Real.arccos Real.arcsin 0 attitude qd2
        = Control.angleError Real.sqrt Real.cos Real.sin Real.arccos Real.arcsin 0
            attitude qd := by
  have key : ∀ t : Quaternionf ℝ, dcm_z t = dcm_z qd →
      Control.angleError Real.sqrt Real.cos Real.sin Real.arccos Real.arcsin 0 attitude t
        = some (Control.angleErrorOf attitude (q * attitude)) := by
    intro t ht
    have hqt : from2vec Real.sqrt (dcm_z attitude) (dcm_z t) = some q := by rw [ht]; exact hq
    simp only [Control.angleError,
      Control.q_tiltError_of_not_guard Real.sqrt attitude t q hqt hg, Option.map_some',
      Control.qdFinal_zero]
  refine ⟨?_, key qd rfl, fun qd2 h2 => ?_⟩
  · simp only [Control.q_tiltError_of_not_guard Real.sqrt attitude qd q hq hg,
      Option.map_some', Control.qdFinal_zero]
  · rw [key qd2 h2, key qd rfl]

/-- Witness of C14 (reals): level attitude, target tilted about the x-axis,
`qd = (4/5, 3/5, 0, 0)`; the attitude error is `(6/5, 0, 0)`. -/
theorem Control.velocityHandler_yawWeight_zero_witness :
    Control.angleError Real.sqrt Real.cos Real.sin Real.arccos Real.arcsin 0
      ⟨1, 0, 0, 0⟩ ⟨4 / 5, 3 / 5, 0, 0⟩ = some ⟨6 / 5, 0, 0⟩ := by
  rw [(Control.velocityHandler_yawWeight_zero ⟨1, 0, 0, 0⟩ ⟨4 / 5, 3 / 5, 0, 0⟩
    ⟨4 / 5, 3 / 5, 0, 0⟩ from2vec_tilt_example Control.tiltGuard_tilt_example).2.1]
  simp only [Control.angleErrorOf, Quaternionf.mul_one, Quaternionf.conjugate, neg_zero,
    Quaternionf.one_mul, Quaternionf.vec, Vector3f.scale]
  norm_num

/-- C15, the code at the failing input (reals): level attitude `(1, 0, 0, 0)`, unit target
`qd = (-3/5, 0, 0, 4/5)`, `yawWeight = 1`.  The error rotation is
`qe = (-3/5, 0, 0, 4/5)`, with negative scalar part; its representative with non-negative
scalar part gives `2 * vec = (0, 0, -8/5)`, but `velocityHandler` computes the error vector
`(0, 0, 8/5)`: the sign test of line 190 reads `attitude.w = 1`, not `qe.w`. -/
theorem Control.angleError_shorter_path_fails :
    (⟨1, 0, 0, 0⟩ : Quaternionf ℝ).squaredNorm = 1 ∧
    (⟨-(3 / 5), 0, 0, 4 / 5⟩ : Quaternionf ℝ).squaredNorm = 1 ∧
    Control.q_tiltError Real.sqrt (⟨1, 0, 0, 0⟩ : Quaternionf ℝ) ⟨-(3 / 5), 0, 0, 4 / 5⟩
      = some ⟨1, 0, 0, 0⟩ ∧
    Control.angleError Real.sqrt Real.cos Real.sin Real.arccos Real.arcsin 1
      ⟨1, 0, 0, 0⟩ ⟨-(3 / 5), 0, 0, 4 / 5⟩ = some ⟨0, 0, 8 / 5⟩ ∧
    Vector3f.scale 2 (Quaternionf.canonical ((⟨1, 0, 0, 0⟩ : Quaternionf ℝ).conjugate
      * Control.qdFinal Real.cos Real.sin Real.arccos Real.arcsin 1 ⟨1, 0, 0, 0⟩
          ⟨-(3 / 5), 0, 0, 4 / 5⟩)).vec = ⟨0, 0, -(8 / 5)⟩ ∧
    (⟨0, 0, 8 / 5⟩ : Vector3f ℝ) ≠ ⟨0, 0, -(8 / 5)⟩ := by
  have ha : (⟨1, 0, 0, 0⟩ : Quaternionf ℝ).squaredNorm = 1 := by
    norm_num [Quaternionf.squaredNorm]
  have hd : dcm_z (⟨-(3 / 5), 0, 0, 4 / 5⟩ : Quaternionf ℝ) = dcm_z (⟨1, 0, 0, 0⟩ : Quaternionf ℝ) := by
    simp only [dcm_z, Vector3f.mk.injEq]
    norm_num
  have hinv : (⟨1, 0, 0, 0⟩ : Quaternionf ℝ).inverse = ⟨1, 0, 0, 0⟩ := by
    rw [Quaternionf.inverse_of_unit _ ha]
    simp [Quaternionf.conjugate]
  have hmix : Control.q_mix (⟨1, 0, 0, 0⟩ : Quaternionf ℝ) ⟨-(3 / 5), 0, 0, 4 / 5⟩
      = ⟨-(3 / 5), 0, 0, 4 / 5⟩ := by
    simp only [Control.q_mix, hinv, Quaternionf.one_mul]
    rw [stdClamp_of_mem _ _ _ (by norm_num) (by norm_num),
      stdClamp_of_mem _ _ _ (by norm_num) (by norm_num)]
  have hfin : Control.qdFinal Real.cos Real.sin Real.arccos Real.arcsin 1
      (⟨1, 0, 0, 0⟩ : Quaternionf ℝ) ⟨-(3 / 5), 0, 0, 4 / 5⟩ = ⟨-(3 / 5), 0, 0, 4 / 5⟩ := by
    rw [Control.qdFinal, hmix, Quaternionf.one_mul]
    simp only [Control.yawBlend, one_mul]
    rw [Real.cos_arccos (by norm_num) (by norm_num),
      Real.sin_arcsin (by norm_num) (by norm_num)]
  refine ⟨ha, by norm_num [Quaternionf.squaredNorm],
    Control.q_tiltError_same_axis _ _ ha hd, ?_, ?_, ?_⟩
  · rw [Control.angleError_same_axis 1 _ _ ha hd, hfin]
    simp only [Control.angleErrorOf, Quaternionf.conjugate, Quaternionf.mul_def,
      Quaternionf.mul, Quaternionf.vec, Vector3f.scale]
    norm_num
  · rw [hfin]
    simp only [Quaternionf.canonical, Quaternionf.conjugate, Quaternionf.mul_def,
      Quaternionf.mul, Quaternionf.neg, Quaternionf.vec, Vector3f.scale]
    norm_num
  · simp only [ne_eq, Vector3f.mk.injEq, not_and]
    norm_num

/-- C16, the code at the failing input (reals): `yawWeight = 0`, unit target
`qd = (4/5, 3/5, 0, 0)`.  For the current attitude `q = (1, 0, 0, 0)` the attitude error is
`(6/5, 0, 0)`; for `-q = (-1, 0, 0, 0)`, the same orientation, it is `(-6/5, 0, 0)`, the
opposite vector. -/
theorem Control.angleError_double_cover_fails :
    (⟨1, 0, 0, 0⟩ : Quaternionf ℝ).squaredNorm = 1 ∧
    (⟨1, 0, 0, 0⟩ : Quaternionf ℝ).w ≠ 0 ∧
    (⟨4 / 5, 3 / 5, 0, 0⟩ : Quaternionf ℝ).squaredNorm = 1 ∧
    Control.angleError Real.sqrt Real.cos Real.sin Real.arccos Real.arcsin 0
      ⟨1, 0, 0, 0⟩ ⟨4 / 5, 3 / 5, 0, 0⟩ = some ⟨6 / 5, 0, 0⟩ ∧
    Control.angleError Real.sqrt Real.cos Real.sin Real.arccos Real.arcsin 0
      (⟨1, 0, 0, 0⟩ : Quaternionf ℝ).neg ⟨4 / 5, 3 / 5, 0, 0⟩ = some ⟨-(6 / 5), 0, 0⟩ ∧
    Control.angleError Real.sqrt Real.cos Real.sin Real.arccos Real.arcsin 0
      (⟨1, 0, 0, 0⟩ : Quaternionf ℝ).neg ⟨4 / 5, 3 / 5, 0, 0⟩
      ≠ Control.angleError Real.sqrt Real.cos Real.sin Real.arccos Real.arcsin 0
          ⟨1, 0, 0, 0⟩ ⟨4 / 5, 3 / 5, 0, 0⟩ := by
  have h1 : Control.angleError Real.sqrt Real.cos Real.sin Real.arccos Real.arcsin 0
      ⟨1, 0, 0, 0⟩ ⟨4 / 5, 3 / 5, 0, 0⟩ = some ⟨6 / 5, 0, 0⟩ := by
    rw [Control.angleError_zero_of_not_guard _ _ _ from2vec_tilt_example
      Control.tiltGuard_tilt_example]
    simp only [Control.angleErrorOf, Quaternionf.mul_one, Quaternionf.conjugate, neg_zero,
      Quaternionf.one_mul, Quaternionf.vec, Vector3f.scale]
    norm_num
  have h2 : Control.angleError Real.sqrt Real.cos Real.sin Real.arccos Real.arcsin 0
      (⟨1, 0, 0, 0⟩ : Quaternionf ℝ).neg ⟨4 / 5, 3 / 5, 0, 0⟩ = some ⟨-(6 / 5), 0, 0⟩ := by
    rw [Control.angleError_zero_of_not_guard _ _ ⟨4 / 5, 3 / 5, 0, 0⟩
      (by rw [dcm_z_neg]; exact from2vec_tilt_example) Control.tiltGuard_tilt_example]
    simp only [Control.angleErrorOf, Quaternionf.conjugate, Quaternionf.neg,
      Quaternionf.mul_def, Quaternionf.mul, Quaternionf.vec, Vector3f.scale, Vector3f.neg]
    norm_num
  refine ⟨by norm_num [Quaternionf.squaredNorm], by norm_num,
    by norm_num [Quaternionf.squaredNorm], h1, h2, ?_⟩
  rw [h1, h2]
  simp only [ne_eq, Option.some.injEq, Vector3f.mk.injEq, not_and]
  norm_num

/-- For `yawWeight = 1`, every current attitude `q` with `q.w ≠ 0` and every target
attitude, the attitude error vector that `velocityHandler` computes for `-q` equals the one
it computes for `q`. -/
theorem Control.angleError_double_cover_of_full_yaw (attitude qd : Quaternionf ℝ)
    (hw : attitude.w ≠ 0) :
    Control.angleError Real.sqrt Real.cos Real.sin Real.arccos Real.arcsin 1 attitude.neg qd
      = Control.angleError Real.sqrt Real.cos Real.sin Real.arccos Real.arcsin 1
          attitude qd := by
  cases hq : from2vec Real.sqrt (dcm_z attitude) (dcm_z qd) with
  | none => simp [Control.angleError, Control.q_tiltError, dcm_z_neg, hq]
  | some q =>
    have hq2 : from2vec Real.sqrt (dcm_z attitude.neg) (dcm_z qd) = some q := by
      rw [dcm_z_neg]; exact hq
    cases hg : Control.tiltGuard q with
    | true =>
      simp only [Control.angleError,
        Control.q_tiltError_of_guard Real.sqrt attitude qd q hq hg,
        Control.q_tiltError_of_guard Real.sqrt attitude.neg qd q hq2 hg, Option.map_some',
        Control.angleErrorOf_neg _ _ hw]
    | false =>
      simp only [Control.angleError,
        Control.q_tiltError_of_not_guard Real.sqrt attitude qd q hq hg,
        Control.q_tiltError_of_not_guard Real.sqrt attitude.neg qd q hq2 hg,
        Option.map_some', Quaternionf.mul_neg, Control.qdFinal_one_neg,
        Control.angleErrorOf_neg _ _ hw]

/-- C17: for all unit quaternions `attitude` and `qd` whose thrust axes are not
anti-parallel and for which the guard branch is not taken,
`q_tilt = from2vec(dcm_z(attitude), dcm_z(qd)) * attitude` is the value of `q_tiltError`, it
has the thrust axis of `qd` (`dcm_z(q_tilt) = dcm_z(qd)`), and `inverse(q_tilt) * qd`, as
well as `q_mix` after the two clamps, has `x = 0` and `y = 0`. -/
theorem Control.q_mix_yaw_only (attitude qd : Quaternionf ℝ)
    (ha : attitude.squaredNorm = 1) (hd : qd.squaredNorm = 1)
    (hne : dcm_z qd ≠ (dcm_z attitude).neg)
    (hg : ∀ q, from2vec Real.sqrt (dcm_z attitude) (dcm_z qd) = some q →
      Control.tiltGuard q = false) :
    ∃ q : Quaternionf ℝ, from2vec Real.sqrt (dcm_z attitude) (dcm_z qd) = some q ∧
      Control.q_tiltError Real.sqrt attitude qd = some (q * attitude) ∧
      dcm_z (q * attitude) = dcm_z qd ∧
      ((q * attitude).inverse * qd).x = 0 ∧ ((q * attitude).inverse * qd).y = 0 ∧
      (Control.q_mix (q * attitude) qd).x = 0 ∧ (Control.q_mix (q * attitude) qd).y = 0 := by
  obtain ⟨q, hq, hqn, hax⟩ := from2vec_dcm_z attitude qd ha hd hne
  have hunit : (q * attitude).squaredNorm = 1 := by
    rw [Quaternionf.squaredNorm_mul, hqn, ha, mul_one]
  obtain ⟨hx, hy⟩ := Quaternionf.yaw_only_of_same_axis (q * attitude) qd hunit hd hax
  rw [← Quaternionf.inverse_of_unit _ hunit] at hx hy
  exact ⟨q, hq, Control.q_tiltError_of_not_guard Real.sqrt attitude qd q hq (hg q hq), hax,
    hx, hy, hx, hy⟩

/-- Witness of C17 (reals): level attitude, target `qd = (4/5, 3/5, 0, 0)` tilted about the
x-axis. -/
theorem Control.q_mix_yaw_only_witness :
    ∃ q : Quaternionf ℝ, from2vec Real.sqrt (dcm_z (⟨1, 0, 0, 0⟩ : Quaternionf ℝ))
        (dcm_z (⟨4 / 5, 3 / 5, 0, 0⟩ : Quaternionf ℝ)) = some q ∧
      Control.q_tiltError Real.sqrt ⟨1, 0, 0, 0⟩ ⟨4 / 5, 3 / 5, 0, 0⟩
        = some (q * ⟨1, 0, 0, 0⟩) ∧
      dcm_z (q * ⟨1, 0, 0, 0⟩) = dcm_z (⟨4 / 5, 3 / 5, 0, 0⟩ : Quaternionf ℝ) ∧
      ((q * ⟨1, 0, 0, 0⟩).inverse * ⟨4 / 5, 3 / 5, 0, 0⟩).x = 0 ∧
      ((q * ⟨1, 0, 0, 0⟩).inverse * ⟨4 / 5, 3 / 5, 0, 0⟩).y = 0 ∧
      (Control.q_mix (q * ⟨1, 0, 0, 0⟩) ⟨4 / 5, 3 / 5, 0, 0⟩).x = 0 ∧
      (Control.q_mix (q * ⟨1, 0, 0, 0⟩) ⟨4 / 5, 3 / 5, 0, 0⟩).y = 0 :=
  Control.q_mix_yaw_only ⟨1, 0, 0, 0⟩ ⟨4 / 5, 3 / 5, 0, 0⟩
    (by norm_num [Quaternionf.squaredNorm]) (by norm_num [Quaternionf.squaredNorm])
    (by
      simp only [dcm_z, Vector3f.neg, ne_eq, Vector3f.mk.injEq, not_and]
      norm_num)
    (by
      intro q hq
      rw [from2vec_tilt_example] at hq
      cases hq
      exact Control.tiltGuard_tilt_example)

/-- C18, the code at the failing input (reals): level attitude `(1, 0, 0, 0)`, unit target
`qd = (-1, 0, 0, 0)` (the same orientation), `yawWeight = 1/2`.  The guard branch is not
taken, `q_mix = (-1, 0, 0, 0)`, and the quaternion
`Quaternionf(cos(yawWeight * acos(q_mix.w)), 0, 0, sin(yawWeight * asin(q_mix.z)))` is
`(0, 0, 0, 0)`: its norm is `0`, the blended target `qd_final` is `(0, 0, 0, 0)` too, and
its thrust axis `(0, 0, 0)` differs from `dcm_z(qd) = (0, 0, 1)`. -/
theorem Control.yawBlend_not_unit :
    (⟨1, 0, 0, 0⟩ : Quaternionf ℝ).squaredNorm = 1 ∧
    (⟨-1, 0, 0, 0⟩ : Quaternionf ℝ).squaredNorm = 1 ∧
    Control.q_tiltError Real.sqrt (⟨1, 0, 0, 0⟩ : Quaternionf ℝ) ⟨-1, 0, 0, 0⟩
      = some ⟨1, 0, 0, 0⟩ ∧
    Control.q_mix (⟨1, 0, 0, 0⟩ : Quaternionf ℝ) ⟨-1, 0, 0, 0⟩ = ⟨-1, 0, 0, 0⟩ ∧
    Control.yawBlend Real.cos Real.sin Real.arccos Real.arcsin (1 / 2)
      (Control.q_mix (⟨1, 0, 0, 0⟩ : Quaternionf ℝ) ⟨-1, 0, 0, 0⟩) = ⟨0, 0, 0, 0⟩ ∧
    (Control.yawBlend Real.cos Real.sin Real.arccos Real.arcsin (1 / 2)
      (Control.q_mix (⟨1, 0, 0, 0⟩ : Quaternionf ℝ) ⟨-1, 0, 0, 0⟩)).squaredNorm = 0 ∧
    Control.qdFinal Real.cos Real.sin Real.arccos Real.arcsin (1 / 2)
      (⟨1, 0, 0, 0⟩ : Quaternionf ℝ) ⟨-1, 0, 0, 0⟩ = ⟨0, 0, 0, 0⟩ ∧
    dcm_z (Control.qdFinal Real.cos Real.sin Real.arccos Real.arcsin (1 / 2)
      (⟨1, 0, 0, 0⟩ : Quaternionf ℝ) ⟨-1, 0, 0, 0⟩) ≠ dcm_z (⟨-1, 0, 0, 0⟩ : Quaternionf ℝ) := by
  have ha : (⟨1, 0, 0, 0⟩ : Quaternionf ℝ).squaredNorm = 1 := by
    norm_num [Quaternionf.squaredNorm]
  have hd : dcm_z (⟨-1, 0, 0, 0⟩ : Quaternionf ℝ) = dcm_z (⟨1, 0, 0, 0⟩ : Quaternionf ℝ) := by
    simp [dcm_z]
  have hinv : (⟨1, 0, 0, 0⟩ : Quaternionf ℝ).inverse = ⟨1, 0, 0, 0⟩ := by
    rw [Quaternionf.inverse_of_unit _ ha]
    simp [Quaternionf.conjugate]
  have hmix : Control.q_mix (⟨1, 0, 0, 0⟩ : Quaternionf ℝ) ⟨-1, 0, 0, 0⟩ = ⟨-1, 0, 0, 0⟩ := by
    simp only [Control.q_mix, hinv, Quaternionf.one_mul]
    rw [stdClamp_of_mem _ _ _ (by norm_num) (by norm_num),
      stdClamp_of_mem _ _ _ (by norm_num) (by norm_num)]
  have hblend : Control.yawBlend Real.cos Real.sin Real.arccos Real.arcsin (1 / 2)
      (Control.q_mix (⟨1, 0, 0, 0⟩ : Quaternionf ℝ) ⟨-1, 0, 0, 0⟩) = ⟨0, 0, 0, 0⟩ := by
    rw [hmix]
    simp only [Control.yawBlend, Real.arccos_neg_one, Real.arcsin_zero, mul_zero,
      Real.sin_zero]
    rw [show (1 / 2 : ℝ) * Real.pi = Real.pi / 2 by ring, Real.cos_pi_div_two]
  have hfin : Control.qdFinal Real.cos Real.sin Real.arccos Real.arcsin (1 / 2)
      (⟨1, 0, 0, 0⟩ : Quaternionf ℝ) ⟨-1, 0, 0, 0⟩ = ⟨0, 0, 0, 0⟩ := by
    rw [Control.qdFinal, hblend, Quaternionf.one_mul]
  refine ⟨ha, by norm_num [Quaternionf.squaredNorm],
    Control.q_tiltError_same_axis _ _ ha hd, hmix, hblend, ?_, hfin, ?_⟩
  · rw [hblend]
    norm_num [Quaternionf.squaredNorm]
  · rw [hfin]
    simp [dcm_z]

end ControllerRealClaims

section ReceiverClaims

/-- C19, the code at the failing input: with `maxChannelCount = 18`,
`ChannelFunction::__end = 28` and `_channelsAssign[0] = 18` before `checkValues`, the entry
is still `18` after `checkValues`, and `channel(f)` and `inDZ(f)` for the function `f = 0`
read index `18`, which is not below `maxChannelCount`; `channel(unsigned)` called with the
same number `18` reads index `17`.  For every content of `_channelsAssign` the index read
after `checkValues` lies in `[1, maxChannelCount]`. -/
theorem RC.channelIndex_out_of_bounds :
    RC.checkValues 18 (18 :: List.replicate 27 0) = 18 :: List.replicate 27 0 ∧
    RC.channelIndex 28 (RC.checkValues 18 (18 :: List.replicate 27 0)) 0 = some 18 ∧
    ¬ ((18 : Int) < ((18 : Nat) : Int)) ∧
    RC.channelNumberIndex 18 18 18 = some 17 ∧
    ∀ (maxChannelCount functionEnd : Nat) (channelsAssign : List Int) (ch : Nat) (i : Int),
      RC.channelIndex functionEnd (RC.checkValues maxChannelCount channelsAssign) ch = some i →
      1 ≤ i ∧ i ≤ (maxChannelCount : Int) := by
  refine ⟨by decide, by decide, by decide, by decide, ?_⟩
  intro M E l ch i h
  simp only [RC.channelIndex] at h
  split_ifs at h with hc
  simp only [Option.some.injEq] at h
  simp only [not_or] at hc
  have hne : (RC.checkValues M l).getD ch 0 ≠ 0 := hc.2
  rw [h] at hne
  have hmem : i ∈ RC.checkValues M l := by
    rw [← h, List.getD_eq_getElem?_getD]
    cases hget : (RC.checkValues M l)[ch]? with
    | none =>
      rw [List.getD_eq_getElem?_getD, hget] at h
      exact absurd h.symm hne
    | some a => exact List.mem_iff_getElem?.mpr ⟨ch, hget⟩
  simp only [RC.checkValues, List.mem_map] at hmem
  obtain ⟨a, _, ha⟩ := hmem
  simp only [RC.checkAssign] at ha
  split_ifs at ha with hcond
  · exact absurd ha.symm hne
  · simp only [not_or, not_lt] at hcond
    omega

/-- C20, the code at the failing input (rationals): with the default calibration
(`_minChannelValue = 1000`, `_maxChannelValue = 2000`, `_channelDeadZone = 5`, not
reversed) the raw input `1000 = _minChannelValue` is stored as `0` with the dead-zone flag
set, not as `-1`; the larger raw input `1010` is stored as the smaller value `-49/50`, so
the stored value is not a non-decreasing function of the raw input; the raw input `2000`
is stored as `1`.  With `maxChannelCount = 2` and `channelCount = 1`, `update` stores
`[0, NaN]`. -/
theorem RC.update_dead_zone_at_minimum :
    RC.normalizeChannel (1000 : ℚ) 2000 5 1 1000 = (0, true) ∧
    RC.normalizeChannel (1000 : ℚ) 2000 5 1 1010 = (-(49 / 50), false) ∧
    RC.normalizeChannel (1000 : ℚ) 2000 5 1 2000 = (1, false) ∧
    ((1000 : Int) ≤ 1010 ∧
      (RC.normalizeChannel (1000 : ℚ) 2000 5 1 1010).1
        < (RC.normalizeChannel (1000 : ℚ) 2000 5 1 1000).1) ∧
    RC.update 2 (fun _ => (1000 : ℚ)) (fun _ => 2000) (fun _ => 5) (fun _ => 1)
      (fun _ => 1000) 1 = [some 0, none] := by
  have h1 : RC.normalizeChannel (1000 : ℚ) 2000 5 1 1000 = (0, true) := by
    norm_num [RC.normalizeChannel, stdClamp]
  have h2 : RC.normalizeChannel (1000 : ℚ) 2000 5 1 1010 = (-(49 / 50), false) := by
    norm_num [RC.normalizeChannel, stdClamp, abs_of_nonneg]
  have h3 : RC.normalizeChannel (1000 : ℚ) 2000 5 1 2000 = (1, false) := by
    norm_num [RC.normalizeChannel, stdClamp, abs_of_nonneg]
  refine ⟨h1, h2, h3, ⟨by norm_num, ?_⟩, ?_⟩
  · rw [h1, h2]
    norm_num
  · simp only [RC.update, List.range, List.range.loop, List.map]
    rw [h1]
    simp

end ReceiverClaims
